import Mathlib

/-!
# Verification of the folio library-synchronization and mutation pipeline

This file gives a shallow embedding, in Lean 4, of the core of the `folio`
desktop application (`src/apps/desktop/src-tauri/src/lib.rs`): the directory
scanner, the organize planner with its collision resolution, and the pending
change queue and applier.  The embedding follows the Rust source function by
function; SQLite tables become Lean lists of records, the filesystem becomes an
explicit value threaded through the operations, and `Result<_, String>` becomes
`Except String _`.

Modelling conventions, used throughout:

* Paths are `String`s with `/` as the separator (the Rust code manipulates
  paths through `std::path::Path`; the helpers `rustFileName`, `rustParent`,
  `rustExtensionOfName`, `rustStemOfName` reimplement the `Path` accessors for
  ordinary separator-normalised paths without trailing slashes).
* SQLite row order is list order: `query_row` without `ORDER BY` returns the
  first matching row in insertion order, so it is modelled by `List.find?`;
  inserts append at the end of the list.
* `Uuid::new_v4()` is nondeterministic; fresh identifiers are drawn from a
  counter threaded through the state (`freshId`).
* `chrono::Utc::now()` timestamps are passed in as parameters.
* External collaborators that the surrounding specification treats as opaque
  (the EPUB metadata rewriter reached through `update_epub_metadata`, the
  metadata extraction and cover generation reached from the scan loop) are
  modelled at their interface: success or failure is recorded as data on the
  modelled filesystem, and the cover/metadata side effects, which touch no
  table that the verified properties mention, are omitted.
-/

namespace Folio

/-! ## String primitives

The built-in `String` functions walk UTF-8 byte positions and do not reduce
inside the kernel, so the handful of operations the source uses (`split`,
`starts_with`, `ends_with`, `replace`, `to_lowercase`, `trim`,
whitespace-splitting) are reimplemented structurally over the character
list, with the same behaviour on the separator-normalised inputs the
pipeline handles.
-/

/-- Split a character list at every occurrence of a separator character
(`str::split` with a one-character pattern). -/
def splitCharList (sep : Char) : List Char → List (List Char)
  | [] => [[]]
  | c :: rest =>
    let r := splitCharList sep rest
    if c = sep then [] :: r
    else
      match r with
      | [] => [[c]]
      | h :: t => (c :: h) :: t

/-- Model of `String.splitOn` with a one-character separator. -/
def splitOnChar (s : String) (sep : Char) : List String :=
  (splitCharList sep s.data).map String.mk

/-- Split at every character satisfying a predicate (`String.split`). -/
def splitPredList (p : Char → Bool) : List Char → List (List Char)
  | [] => [[]]
  | c :: rest =>
    let r := splitPredList p rest
    if p c then [] :: r
    else
      match r with
      | [] => [[c]]
      | h :: t => (c :: h) :: t

/-- Model of `str::starts_with`. -/
def strHasPrefix (s pre : String) : Bool :=
  decide (s.data.take pre.data.length = pre.data)

/-- Model of `str::ends_with`. -/
def strHasSuffix (s suf : String) : Bool :=
  decide (s.data.drop (s.data.length - suf.data.length) = suf.data)

/-- Model of `str::to_lowercase` (ASCII, which covers the handled extensions). -/
def strToLower (s : String) : String :=
  String.mk (s.data.map Char.toLower)

/-- Leftmost non-overlapping replacement, structural in explicit fuel
(`str::replace`; the pipeline only replaces nonempty literal patterns). -/
def replaceListAux (pat rep : List Char) : Nat → List Char → List Char
  | 0, l => l
  | _ + 1, [] => []
  | fuel + 1, c :: rest =>
    if (c :: rest).take pat.length = pat then
      rep ++ replaceListAux pat rep fuel ((c :: rest).drop pat.length)
    else
      c :: replaceListAux pat rep fuel rest

/-- Model of `str::replace` for nonempty patterns. -/
def strReplace (s pat rep : String) : String :=
  if pat.data = [] then s
  else String.mk (replaceListAux pat.data rep.data s.data.length s.data)

/-- Model of `str::trim`. -/
def strTrim (s : String) : String :=
  String.mk
    (((s.data.dropWhile Char.isWhitespace).reverse.dropWhile Char.isWhitespace).reverse)

/-! ## Path helpers (modelling `std::path::Path` accessors) -/

/-- Last `/`-separated component of a path, as `Path::file_name` returns it
for separator-normalised paths without trailing slashes (`none` for an empty
final component). -/
def rustFileName (p : String) : Option String :=
  match (splitOnChar p '/').getLast? with
  | some s => if s = "" then none else some s
  | none => none

/-- The extension of a bare file name, as `Path::extension`: the part after
the final dot, except that a name with no dot, or a leading-dot name with no
further dot, has no extension. -/
def rustExtensionOfName (n : String) : Option String :=
  let parts := splitOnChar n '.'
  if parts.length ≤ 1 then none
  else if parts.length = 2 ∧ parts.headD "" = "" then none
  else parts.getLast?

/-- The stem of a bare file name, as `Path::file_stem`: the name with its
extension (and the dot before it) removed. -/
def rustStemOfName (n : String) : String :=
  match rustExtensionOfName n with
  | none => n
  | some e => n.dropRight (e.length + 1)

/-- Model of `Path::extension` on a full path. -/
def rustPathExtension (p : String) : Option String :=
  (rustFileName p).bind rustExtensionOfName

/-- Model of `Path::file_stem` on a full path. -/
def rustPathStem (p : String) : Option String :=
  (rustFileName p).map rustStemOfName

/-- Model of `Path::parent` on a full path: everything before the final component
(`some ""` for a bare file name, `none` for an empty path or the root). -/
def rustParent (p : String) : Option String :=
  if p = "" ∨ p = "/" then none
  else
    let comps := splitOnChar p '/'
    match comps.dropLast with
    | [] => some ""
    | [""] => some "/"
    | rest => some (String.intercalate "/" rest)

/-- Model of `Path::join`: appends a relative component with a separator; an absolute
right-hand side replaces the left-hand side. -/
def joinPath (a b : String) : String :=
  if strHasPrefix b "/" then b
  else if a = "" then b
  else if strHasSuffix a "/" then a ++ b
  else a ++ "/" ++ b

/-- Model of `Path::with_file_name`: replace the final component. -/
def withFileName (p fn : String) : String :=
  match rustParent p with
  | some par => joinPath par fn
  | none => fn

/-! ## Record types (rows of the SQLite tables) -/

/-- One row of the `files` table. -/
structure FileRecord where
  id : String
  itemId : String
  path : String
  filename : String
  extension : String
  sizeBytes : Option Int
  sha256 : Option String
  hashAlgo : String
  modifiedAt : Option Int
  status : String
  createdAt : Int
  updatedAt : Int
deriving Repr, DecidableEq

/-- One row of the `items` table (only the columns the pipeline touches). -/
structure Item where
  id : String
  title : Option String
  createdAt : Int
  updatedAt : Int
deriving Repr, DecidableEq

/-- One row of the `scan_sessions` table. -/
structure ScanSession where
  id : String
  rootPath : String
  startedAt : Int
  status : String
  endedAt : Option Int
deriving Repr, DecidableEq

/-- One row of the `scan_entries` table. -/
structure ScanEntry where
  id : String
  sessionId : String
  path : String
  modifiedAt : Option Int
  sizeBytes : Option Int
  sha256 : Option String
  action : String
  fileId : String
deriving Repr, DecidableEq

/-- One row of the `issues` table. -/
structure Issue where
  id : String
  itemId : String
  fileId : String
  type : String
  message : String
  severity : String
  createdAt : Int
  resolvedAt : Option Int
deriving Repr, DecidableEq

/-- One row of the `pending_changes` table. -/
structure PendingChange where
  id : String
  fileId : String
  changeType : String
  fromPath : Option String
  toPath : Option String
  changesJson : Option String
  status : String
  createdAt : Int
  appliedAt : Option Int
  error : Option String
deriving Repr, DecidableEq

/-- The database: one list per table, in rowid (insertion) order. -/
structure DB where
  files : List FileRecord
  items : List Item
  scanSessions : List ScanSession
  scanEntries : List ScanEntry
  pendingChanges : List PendingChange
  issues : List Issue
deriving Repr, DecidableEq

/-- The empty database. -/
def DB.empty : DB := ⟨[], [], [], [], [], []⟩

/-- Fresh identifiers for `Uuid::new_v4()`, drawn from a counter. -/
def freshId (n : Nat) : String := "uuid-" ++ Nat.repr n

/-! ## Staged-change payloads -/

/-- The decoded `EpubChangeSet` payload of a metadata-edit change. -/
structure EpubChangeSet where
  title : Option String
  author : Option String
  isbn : Option String
  description : Option String
deriving Repr, DecidableEq

/-- Stand-in for `serde_json::to_string` on an `EpubChangeSet`; the pipeline
treats the payload as opaque, so only a total encoding is needed. -/
def encodeEpubChangeSet (c : EpubChangeSet) : String :=
  String.intercalate "|" [c.title.getD "", c.author.getD "", c.isbn.getD "", c.description.getD ""]

/-! ## Enqueueing staged changes

Three call sites insert into `pending_changes`:
`queue_epub_changes_for_item` (metadata edits), the duplicate-resolution
commands (`resolve_duplicate_group`, `resolve_duplicate_group_by_files`)
(deletes), and `generate_pending_changes_from_organize` (renames).
-/

/-- One iteration of the row loop of `queue_epub_changes_for_item`: delete any
pending `epub_meta` change for the row's file, then insert the fresh one. -/
def queueEpubStep (now : Int) (changesJson : String) (acc : DB × Int × Nat)
    (r : FileRecord) : DB × Int × Nat :=
  let (db, created, ctr) := acc
  let db := { db with pendingChanges := db.pendingChanges.filter fun c =>
    ¬ (c.fileId = r.id ∧ c.changeType = "epub_meta" ∧ c.status = "pending") }
  let change : PendingChange :=
    { id := freshId ctr, fileId := r.id, changeType := "epub_meta",
      fromPath := some r.path, toPath := none, changesJson := some changesJson,
      status := "pending", createdAt := now, appliedAt := none, error := none }
  ({ db with pendingChanges := db.pendingChanges ++ [change] }, created + 1, ctr + 1)

/-- Model of `queue_epub_changes_for_item` (lib.rs:5271): for every active `.epub` file
of the item, delete any pending `epub_meta` change for that file and insert a
fresh one. -/
def queueEpubChangesForItem (db : DB) (itemId : String) (changes : EpubChangeSet)
    (now : Int) (ctr : Nat) : DB × Int × Nat :=
  let hasChanges := changes.title.isSome ∨ changes.author.isSome ∨
    changes.isbn.isSome ∨ changes.description.isSome
  if ¬ hasChanges then (db, 0, ctr)
  else
    let rows := db.files.filter fun r =>
      r.itemId = itemId ∧ r.status = "active" ∧
        (r.extension.toLower = "epub" ∨ r.extension.toLower = ".epub")
    let changesJson := encodeEpubChangeSet changes
    rows.foldl (queueEpubStep now changesJson) (db, 0, ctr)

/-- One entry of a transient organize plan. -/
structure OrganizeEntry where
  fileId : String
  sourcePath : String
  targetPath : String
  action : String
deriving Repr, DecidableEq

/-- One iteration of the entry loop of `generate_pending_changes_from_organize`. -/
def organizeRenameStep (now : Int) (acc : DB × Int × Nat) (entry : OrganizeEntry) :
    DB × Int × Nat :=
  let (db, created, ctr) := acc
  if entry.action = "skip" then (db, created, ctr)
  else
    let change : PendingChange :=
      { id := freshId ctr, fileId := entry.fileId, changeType := "rename",
        fromPath := some entry.sourcePath, toPath := some entry.targetPath,
        changesJson := none, status := "pending", createdAt := now,
        appliedAt := none, error := none }
    ({ db with pendingChanges := db.pendingChanges ++ [change] }, created + 1, ctr + 1)

/-- Model of `generate_pending_changes_from_organize` (lib.rs:2623): insert one pending
`rename` change per non-skip plan entry.  No existing pending change is
removed first. -/
def generatePendingChangesFromOrganize (db : DB) (entries : List OrganizeEntry)
    (now : Int) (ctr : Nat) : DB × Int × Nat :=
  entries.foldl (organizeRenameStep now) (db, 0, ctr)

/-- One iteration of the per-file loop of `resolve_duplicate_group_by_files`:
for a listed file other than the kept one that is still active, insert a
pending `delete` change (without removing any existing pending change), then
mark the file inactive. -/
def resolveDupStep (keepFileId : String) (now : Int) (acc : DB × Nat)
    (fileId : String) : DB × Nat :=
  let (db, ctr) := acc
  if fileId = keepFileId then (db, ctr)
  else
    let pathRow := (db.files.find? fun r => r.id = fileId ∧ r.status = "active").map (·.path)
    let (db, ctr) :=
      match pathRow with
      | some path =>
        let change : PendingChange :=
          { id := freshId ctr, fileId := fileId, changeType := "delete",
            fromPath := some path, toPath := none, changesJson := none,
            status := "pending", createdAt := now, appliedAt := none, error := none }
        ({ db with pendingChanges := db.pendingChanges ++ [change] }, ctr + 1)
      | none => (db, ctr)
    ({ db with files := db.files.map fun r =>
        if r.id = fileId then { r with status := "inactive", updatedAt := now } else r }, ctr)

/-- Model of `resolve_duplicate_group_by_files` (lib.rs:1274): for every listed file
other than the kept one that is still active, insert a pending `delete`
change (again without removing any existing pending change), then mark the
file inactive. -/
def resolveDuplicateGroupByFiles (db : DB) (fileIds : List String)
    (keepFileId : String) (now : Int) (ctr : Nat) : DB × Nat :=
  List.foldl (resolveDupStep keepFileId now) (db, ctr) fileIds

/-- Number of pending changes of a given type targeting a given file. -/
def countPendingOfType (db : DB) (ty fileId : String) : Nat :=
  (db.pendingChanges.filter fun c =>
    c.fileId = fileId ∧ c.changeType = ty ∧ c.status = "pending").length

/-! ## C1: type-scoped supersession on enqueue -/

/-- A pending `rename` change already staged for file `f1`. -/
def c1PriorChange : PendingChange :=
  { id := "c-old", fileId := "f1", changeType := "rename",
    fromPath := some "/lib/a.epub", toPath := some "/lib/Author/A.epub",
    changesJson := none, status := "pending", createdAt := 1,
    appliedAt := none, error := none }

/-- A database holding one pending rename for `f1`. -/
def c1Db : DB := { DB.empty with pendingChanges := [c1PriorChange] }

/-- An organize-plan entry staging a second rename of `f1`. -/
def c1Entry : OrganizeEntry :=
  { fileId := "f1", sourcePath := "/lib/a.epub",
    targetPath := "/lib/Author/A2.epub", action := "move" }

/-- A pending `delete` change already staged for file `f2`. -/
def c1PriorDelete : PendingChange :=
  { id := "d-old", fileId := "f2", changeType := "delete",
    fromPath := some "/lib/b.epub", toPath := none,
    changesJson := none, status := "pending", createdAt := 1,
    appliedAt := none, error := none }

/-- The still-active record of file `f2`, a duplicate to be resolved away. -/
def c1DupRecord : FileRecord :=
  { id := "f2", itemId := "i2", path := "/lib/b.epub", filename := "b.epub",
    extension := ".epub", sizeBytes := some 2, sha256 := some "hb",
    hashAlgo := "sha256", modifiedAt := some 1, status := "active",
    createdAt := 0, updatedAt := 0 }

/-- A database holding the active record of `f2` and one pending delete for it. -/
def c1DelDb : DB := { DB.empty with
  files := [c1DupRecord]
  pendingChanges := [c1PriorDelete] }

/-! ## Filesystem model for the change applier

Only what the applier observes is modelled: which paths exist, which paths
fail to be removed with an error other than `NotFound`, and which EPUB files
the external metadata rewriter (`update_epub_metadata`) cannot rewrite.
-/

structure FS where
  files : List String
  unremovable : List String
  badEpubs : List String
deriving Repr, DecidableEq

/-- Error kinds distinguished by the applier (`err.kind() != NotFound`). -/
inductive FsErrorKind where
  | notFound
  | other
deriving Repr, DecidableEq

/-- Model of `std::fs::remove_file`. -/
def FS.removeFile (fs : FS) (p : String) : Except FsErrorKind FS :=
  if p ∉ fs.files then .error .notFound
  else if p ∈ fs.unremovable then .error .other
  else .ok { fs with files := fs.files.erase p }

/-- Model of `std::fs::rename` (failing when the source does not exist; the
`create_dir_all` on the target directory is modelled as always succeeding). -/
def FS.renameFile (fs : FS) (fromPath toPath : String) : Except String FS :=
  if fromPath ∉ fs.files then .error "No such file or directory"
  else .ok { fs with files := (fs.files.erase fromPath) ++ [toPath] }

/-- The terminal batch summary emitted by long operations. -/
structure OperationStats where
  total : Nat
  processed : Nat
  skipped : Nat
  errors : Nat
deriving Repr, DecidableEq

/-! ## The change applier -/

/-- Model of `apply_rename_change` (lib.rs:1316): resolve the source path (explicit or
looked up from the FileRecord), require a target path, move the file, and
update the FileRecord's path, filename and extension.  The result keeps the
per-change outcome as `Option String` (`none` = `Ok`), because the failing
branches also leave their database and filesystem effects behind. -/
def applyRenameChange (fs : FS) (db : DB) (change : PendingChange) (now : Int) :
    FS × DB × Option String :=
  let fromPath? : Option String :=
    match change.fromPath with
    | some v => some v
    | none => (db.files.find? fun r => r.id = change.fileId).map (·.path)
  match fromPath? with
  | none => (fs, db, some "Query returned no rows")
  | some fromPath =>
    match change.toPath with
    | none => (fs, db, some "Missing target path")
    | some toPath =>
      match rustParent toPath with
      | none => (fs, db, some "Invalid target path")
      | some _ =>
        match fs.renameFile fromPath toPath with
        | .error e => (fs, db, some e)
        | .ok fs' =>
          let filename := (rustFileName toPath).getD "file"
          let extension := (rustPathExtension toPath).getD ""
          let db' := { db with files := db.files.map fun r =>
            if r.id = change.fileId then
              { r with
                path := toPath
                filename := filename
                extension := extension
                updatedAt := now }
            else r }
          (fs', db', none)

/-- Model of `apply_epub_change` (lib.rs:1363): require the source path and the payload,
then rewrite the embedded metadata in place.  The external rewriter
(`update_epub_metadata`, a zip/XML transformation) is modelled at its
interface: it succeeds exactly when the file exists and is not a bad EPUB;
payload decoding is folded into the same failure set. -/
def applyEpubChange (fs : FS) (db : DB) (change : PendingChange) (_now : Int) :
    FS × DB × Option String :=
  match change.fromPath with
  | none => (fs, db, some "Missing EPUB path")
  | some path =>
    match change.changesJson with
    | none => (fs, db, some "Missing changes")
    | some _ =>
      if path ∈ fs.files ∧ path ∉ fs.badEpubs then (fs, db, none)
      else (fs, db, some "Could not rewrite EPUB metadata")

/-- Model of `apply_delete_change` (lib.rs:1377): remove the file; `NotFound` counts as
success; any other removal error restores the FileRecord to `active` and is
reported; on success the FileRecord is marked `inactive` and all `duplicate`
issues referencing it are resolved. -/
def applyDeleteChange (fs : FS) (db : DB) (change : PendingChange) (now : Int) :
    FS × DB × Option String :=
  match change.fromPath with
  | none => (fs, db, some "Missing file path")
  | some path =>
    let removed := fs.removeFile path
    match removed with
    | .error .other =>
      let db' := { db with files := db.files.map fun r =>
        if r.id = change.fileId then { r with status := "active", updatedAt := now } else r }
      (fs, db', some ("Could not delete file " ++ path))
    | _ =>
      let fs' : FS := match removed with
        | .ok fsNew => fsNew
        | _ => fs
      let db' : DB := { db with files := db.files.map fun r =>
        if r.id = change.fileId then { r with status := "inactive", updatedAt := now } else r }
      let db'' : DB := { db' with issues := db'.issues.map fun i =>
        if i.fileId = change.fileId ∧ i.type = "duplicate" then
          { i with resolvedAt := some now }
        else i }
      (fs', db'', none)

/-- The `match change.change_type` dispatch of `apply_pending_changes_sync`. -/
def applyChangeDispatch (fs : FS) (db : DB) (change : PendingChange) (now : Int) :
    FS × DB × Option String :=
  match change.changeType with
  | "rename" => applyRenameChange fs db change now
  | "epub_meta" => applyEpubChange fs db change now
  | "delete" => applyDeleteChange fs db change now
  | _ => (fs, db, some "Unsupported change type")

/-- Stable insertion into a list ascending in `createdAt`. -/
def insertByCreatedAt (c : PendingChange) : List PendingChange → List PendingChange
  | [] => [c]
  | d :: rest =>
    if c.createdAt ≤ d.createdAt then c :: d :: rest
    else d :: insertByCreatedAt c rest

/-- Stable sort ascending in `createdAt`, modelling `ORDER BY created_at ASC`
(ties keep rowid order). -/
def sortByCreatedAt : List PendingChange → List PendingChange
  | [] => []
  | c :: rest => insertByCreatedAt c (sortByCreatedAt rest)

/-- The selection phase of `apply_pending_changes_sync` (lib.rs:1068): an empty
id list loads all pending changes ordered by creation time; a non-empty list
loads, per given id and in the given order, the pending row with that id if
one exists. -/
def selectChanges (db : DB) (ids : List String) : List PendingChange :=
  if ids.isEmpty then
    sortByCreatedAt (db.pendingChanges.filter fun c => c.status = "pending")
  else
    ids.filterMap fun id =>
      db.pendingChanges.find? fun c => c.status = "pending" ∧ c.id = id

/-- Accumulated state of the apply loop: database, filesystem, summary
counters, and the emitted `change-progress` events `(item_id, status)`. -/
structure ApplyState where
  db : DB
  fs : FS
  stats : OperationStats
  events : List (String × String)
deriving Repr, DecidableEq

/-- One iteration of the change loop of `apply_pending_changes_sync`: emit
`processing`, run the dispatch, then record `applied`/`error` on the change
row, bump the corresponding counter and emit `done`/`error`.  (The
`current`/`total` counters of the progress payload are omitted; the event
list order carries the processing order.) -/
def applyStep (now : Int) (st : ApplyState) (change : PendingChange) : ApplyState :=
  let st := { st with events := st.events ++ [(change.id, "processing")] }
  let (fs', db', res) := applyChangeDispatch st.fs st.db change now
  match res with
  | none =>
    let db'' := { db' with pendingChanges := db'.pendingChanges.map fun c =>
      if c.id = change.id then
        { c with status := "applied", appliedAt := some now, error := none }
      else c }
    { db := db'', fs := fs',
      stats := { st.stats with processed := st.stats.processed + 1 },
      events := st.events ++ [(change.id, "done")] }
  | some msg =>
    let db'' := { db' with pendingChanges := db'.pendingChanges.map fun c =>
      if c.id = change.id then { c with status := "error", error := some msg } else c }
    { db := db'', fs := fs',
      stats := { st.stats with errors := st.stats.errors + 1 },
      events := st.events ++ [(change.id, "error")] }

/-- Model of `apply_pending_changes_sync` (lib.rs:1068). -/
def applyPendingChangesSync (fs : FS) (db : DB) (ids : List String) (now : Int) :
    ApplyState :=
  let changes := selectChanges db ids
  let total := changes.length
  changes.foldl (applyStep now)
    { db := db, fs := fs,
      stats := { total := total, processed := 0, skipped := 0, errors := 0 },
      events := [] }

/-! ## The organize planner -/

/-- Model of `sanitize` (lib.rs:5355): replace filesystem-illegal characters with `-`,
collapse whitespace runs, trim.  (Rust `char::is_whitespace` is Unicode;
the model uses ASCII whitespace, which covers every character the pipeline
produces.) -/
def sanitize (value : String) : String :=
  let mapped := value.data.map fun ch =>
    if ch = '\\' ∨ ch = '/' ∨ ch = ':' ∨ ch = '*' ∨ ch = '?' ∨ ch = '"' ∨
       ch = '<' ∨ ch = '>' ∨ ch = '|' then '-' else ch
  strTrim (String.intercalate " "
    (((splitPredList Char.isWhitespace mapped).map String.mk).filter fun s => s ≠ ""))

/-- Model of `render_template` (lib.rs:5334): fill the placeholders of the path
template with the sanitized metadata fields. -/
def renderTemplate (template author title : String) (year : Option Int)
    (isbn13 : Option String) (extension : String) : String :=
  let author := sanitize author
  let title := sanitize title
  let year := match year with
    | some v => toString v
    | none => "Unknown"
  let isbn13 := isbn13.getD "Unknown"
  let ext := String.mk (extension.data.dropWhile fun c => c = '.')
  strReplace (strReplace (strReplace (strReplace (strReplace template
    "{Author}" author) "{Title}" title) "{Year}" year) "{ISBN13}" isbn13) "{ext}" ext

/-- The regex `^(.*)\s\[(\d+)\]$` of `plan_organize`: when the string ends in
a single whitespace character followed by a nonempty bracketed digit run,
return the part before the whitespace. -/
def stripCollisionSuffix (s : String) : Option String :=
  if ¬ strHasSuffix s "]" then none
  else
    let t := s.dropRight 1
    let digits := String.mk ((t.data.reverse.takeWhile Char.isDigit).reverse)
    if digits = "" then none
    else
      let u := t.dropRight digits.length
      if ¬ strHasSuffix u "[" then none
      else
        let v := u.dropRight 1
        match v.data.getLast? with
        | some c => if c.isWhitespace then some (v.dropRight 1) else none
        | none => none

/-- The bracketed file name tried by `resolve_collision` at index `i`:
`format!("{} [{}]", stem, index)`, keeping the extension when present. -/
def collisionName (stem ext : String) (i : Nat) : String :=
  if ext = "" then stem ++ " [" ++ Nat.repr i ++ "]"
  else stem ++ " [" ++ Nat.repr i ++ "]." ++ ext

/-- The candidate path tried by `resolve_collision` at index `i`
(`base.with_file_name(filename)`). -/
def collisionCandidate (base stem ext : String) (i : Nat) : String :=
  withFileName base (collisionName stem ext i)

/-- The `loop` of `resolve_collision`, made total with explicit fuel: try
indices `i, i+1, …` and return the first candidate that does not exist.  The
fuel chosen by `resolveCollision` is large enough that it never runs out (a
candidate whose decimal index is longer than every existing path always
escapes the loop), so the out-of-fuel branch is unreachable. -/
def resolveCollisionLoop (existing : List String) (base stem ext : String) :
    Nat → Nat → String
  | 0, i => collisionCandidate base stem ext i
  | fuel+1, i =>
    let candidate := collisionCandidate base stem ext i
    if candidate ∈ existing then resolveCollisionLoop existing base stem ext fuel (i+1)
    else candidate

/-- Length of the longest path in the modelled filesystem. -/
def maxStringLength (l : List String) : Nat :=
  l.foldr (fun s acc => max s.length acc) 0

/-- Model of `resolve_collision` (lib.rs:5369): return `root/relative` if free,
otherwise append an incrementing bracketed index (starting at 1) to the
filename stem until a free path is found.  `existing` is the set of paths for
which `Path::exists` holds. -/
def resolveCollision (existing : List String) (libraryRoot relative : String) : String :=
  let base := joinPath libraryRoot relative
  if base ∉ existing then base
  else
    let stem := (rustPathStem base).getD "file"
    let ext := (rustPathExtension base).getD ""
    resolveCollisionLoop existing base stem ext
      (10 ^ maxStringLength existing + 1) 1

/-- Model of `GROUP_CONCAT(DISTINCT authors.name)` followed by
`.split(',').next().unwrap_or("Unknown Author")` in `plan_organize`. -/
def firstAuthor (authors : Option String) : String :=
  match splitOnChar (authors.getD "") ',' with
  | [] => "Unknown Author"
  | a :: _ => a

/-- Model of `Path::strip_prefix` for separator-normalised string paths. -/
def stripPrefixPath (root p : String) : Option String :=
  if root = "" then some p
  else if p = root then some ""
  else
    let root' := if strHasSuffix root "/" then root else root ++ "/"
    if strHasPrefix p root' then some (String.mk (p.data.drop root'.data.length)) else none

/-- The relative path rendered for one `plan_organize` row. -/
def relativeFor (template : String) (title : Option String)
    (publishedYear : Option Int) (authors isbn13 : Option String)
    (extension : String) : String :=
  renderTemplate template (firstAuthor authors) (title.getD "Untitled")
    publishedYear isbn13 extension

/-- The proposed target path (`root / relative`) for one `plan_organize`
row. -/
def proposedTargetFor (libraryRoot template : String) (title : Option String)
    (publishedYear : Option Int) (authors isbn13 : Option String)
    (extension : String) : String :=
  joinPath libraryRoot (relativeFor template title publishedYear authors isbn13 extension)

/-- The per-row body of `plan_organize` (lib.rs:2544): render the template,
compare the proposed target with the current source path (exact equality,
canonicalized equality — `canon` models `std::fs::canonicalize` — or same
parent and same stem modulo a trailing collision suffix, directly or
relative to the library root), and emit a skip entry or a collision-resolved
copy/move entry. -/
def planEntryFor (canon : String → Option String) (existing : List String)
    (mode libraryRoot template : String) (fileId sourcePath extension : String)
    (title : Option String) (publishedYear : Option Int)
    (authors : Option String) (isbn13 : Option String) : OrganizeEntry :=
  let relative := relativeFor template title publishedYear authors isbn13 extension
  let proposedTarget := proposedTargetFor libraryRoot template title
    publishedYear authors isbn13 extension
  let sourceCanon := canon sourcePath
  let targetCanon := canon proposedTarget
  let expectedParent := rustParent proposedTarget
  let sourceParent := rustParent sourcePath
  let expectedStem := rustPathStem proposedTarget
  let sourceStem := rustPathStem sourcePath
  let sourceStemBase := sourceStem.bind stripCollisionSuffix
  let sameUnderRoot : Bool :=
    match stripPrefixPath libraryRoot sourcePath with
    | none => false
    | some rel =>
      let relParent := rustParent rel
      let expectedRelParent := rustParent relative
      let relStem := rustPathStem rel
      let relStemBase := relStem.bind stripCollisionSuffix
      let expectedRelStem := rustPathStem relative
      if relParent = expectedRelParent ∧
          (relStem = expectedRelStem ∨ relStemBase = expectedRelStem) then true
      else false
  let action0 := if mode = "reference" then "skip"
    else if mode = "copy" then "copy" else "move"
  let samePath := sourcePath = proposedTarget ∨
    (sourceCanon.isSome ∧ sourceCanon = targetCanon) ∨
    (expectedParent.isSome ∧ sourceParent.isSome ∧ expectedParent = sourceParent ∧
      expectedStem.isSome ∧ (sourceStem = expectedStem ∨ sourceStemBase = expectedStem))
  let action := if samePath ∨ sameUnderRoot then "skip" else action0
  let target := if samePath ∨ sameUnderRoot then proposedTarget
    else resolveCollision existing libraryRoot relative
  { fileId := fileId, sourcePath := sourcePath, targetPath := target, action := action }

/-! ## The directory scanner

`scan_folder_sync` (lib.rs:3010) is modelled as a fold over the walked
files.  The walk itself (`WalkDir`) is an input: `walk` lists the files
found under the root in visit order, and `diskPaths` lists every path that
exists on disk (`Path::exists`, also consulted for paths outside the root).
The metadata-extraction and cover side effects on `added`/`updated` files
are performed by external collaborators, never touch the tables the scan
classification writes, and have their failures swallowed; they are omitted.
The `hashed` field instruments the single `hash_file` call site.
-/

/-- One file yielded by the directory walk: its path, the data `stat` and
`hash_file` would produce, and whether those calls succeed (`statOk` false
models an `entry.metadata()` error, `hash = none` a `hash_file` error). -/
structure DiskFile where
  path : String
  size : Int
  mtime : Option Int
  hash : Option String
  statOk : Bool
deriving Repr, DecidableEq

/-- The counters returned by one scan. -/
structure ScanStats where
  added : Nat
  updated : Nat
  moved : Nat
  unchanged : Nat
  missing : Nat
deriving Repr, DecidableEq

/-- Mutable state of the scan loop. -/
structure ScanState where
  db : DB
  stats : ScanStats
  seen : List String
  hashed : Nat
  ctr : Nat
deriving Repr, DecidableEq

/-- The `ORDER BY CASE status WHEN 'active' THEN 0 WHEN 'missing' THEN 1
ELSE 2 END` rank. -/
def statusRank (s : String) : Nat :=
  if s = "active" then 0 else if s = "missing" then 1 else 2

/-- Model of `ORDER BY rank, updated_at DESC LIMIT 1` over a candidate list (first
row wins ties, matching rowid order). -/
def bestByHash (l : List FileRecord) : Option FileRecord :=
  List.foldl (fun best r =>
    match best with
    | none => some r
    | some b =>
      if statusRank r.status < statusRank b.status ∨
         (statusRank r.status = statusRank b.status ∧ b.updatedAt < r.updatedAt)
      then some r else some b) none l

/-- The `existing_by_hash` query of the scan loop. -/
def findByHash (db : DB) (h : String) : Option FileRecord :=
  bestByHash (db.files.filter fun r =>
    r.sha256 = some h ∧ r.hashAlgo = "sha256" ∧ r.status ≠ "inactive")

/-- The `unchanged` branch: reactivate a `missing` record, bump the counter,
log a `unchanged` scan entry (no hash recorded). -/
def scanUnchanged (sessionId : String) (now : Int) (st : ScanState)
    (r0 : FileRecord) (pathStr : String) (modifiedAt : Option Int)
    (sizeBytes : Int) : ScanState :=
  let db := if r0.status = "missing" then
      { st.db with files := st.db.files.map fun x =>
        if x.id = r0.id then { x with status := "active", updatedAt := now } else x }
    else st.db
  let entry : ScanEntry :=
    { id := freshId st.ctr, sessionId := sessionId, path := pathStr,
      modifiedAt := modifiedAt, sizeBytes := some sizeBytes, sha256 := none,
      action := "unchanged", fileId := r0.id }
  { st with
    db := { db with scanEntries := db.scanEntries ++ [entry] }
    stats := { st.stats with unchanged := st.stats.unchanged + 1 }
    ctr := st.ctr + 1 }

/-- The hash-requiring branches of the scan loop: duplicate, moved, updated,
added. -/
def scanSlow (diskPaths : List String) (sessionId : String) (now : Int)
    (st : ScanState) (f : DiskFile) (filename pathStr ext : String)
    (sizeBytes : Int) (modifiedAt : Option Int)
    (existingByPath : Option FileRecord) : ScanState × Option String :=
  match f.hash with
  | none => (st, some "failed to hash file")
  | some sha =>
    let st := { st with hashed := st.hashed + 1 }
    match findByHash st.db sha with
    | some hit =>
      if hit.path ∈ diskPaths then
        -- duplicate: new FileRecord at the new path cloning the owning item,
        -- `duplicate` issue carrying the new record's id
        let dupId := freshId st.ctr
        let db := match st.db.files.find? fun x => x.id = hit.id with
          | some orig =>
            let newRec : FileRecord :=
              { id := dupId, itemId := orig.itemId, path := pathStr,
                filename := filename, extension := ext,
                sizeBytes := some sizeBytes, sha256 := some sha,
                hashAlgo := "sha256", modifiedAt := modifiedAt,
                status := "active", createdAt := now, updatedAt := now }
            let issue : Issue :=
              { id := freshId (st.ctr + 1), itemId := orig.itemId, fileId := dupId,
                type := "duplicate", message := "Duplicate content detected by hash.",
                severity := "warn", createdAt := now, resolvedAt := none }
            { st.db with files := st.db.files ++ [newRec],
                         issues := st.db.issues ++ [issue] }
          | none => st.db
        let entry : ScanEntry :=
          { id := freshId (st.ctr + 2), sessionId := sessionId, path := pathStr,
            modifiedAt := modifiedAt, sizeBytes := some sizeBytes,
            sha256 := some sha, action := "added", fileId := dupId }
        ({ st with
            db := { db with scanEntries := db.scanEntries ++ [entry] }
            stats := { st.stats with added := st.stats.added + 1 }
            ctr := st.ctr + 3 }, none)
      else
        -- moved: update the existing record in place
        let db := { st.db with files := st.db.files.map fun x : FileRecord =>
          if x.id = hit.id then
            { x with
              path := pathStr
              filename := filename
              extension := ext
              sizeBytes := some sizeBytes
              modifiedAt := modifiedAt
              updatedAt := now
              status := "active" }
          else x }
        let entry : ScanEntry :=
          { id := freshId st.ctr, sessionId := sessionId, path := pathStr,
            modifiedAt := modifiedAt, sizeBytes := some sizeBytes,
            sha256 := some sha, action := "moved", fileId := hit.id }
        ({ st with
            db := { db with scanEntries := db.scanEntries ++ [entry] }
            stats := { st.stats with moved := st.stats.moved + 1 }
            ctr := st.ctr + 1 }, none)
    | none =>
      match existingByPath with
      | some r0 =>
        -- updated: content changed in place
        let db := { st.db with files := st.db.files.map fun x : FileRecord =>
          if x.id = r0.id then
            { x with
              filename := filename
              extension := ext
              sizeBytes := some sizeBytes
              modifiedAt := modifiedAt
              sha256 := some sha
              hashAlgo := "sha256"
              updatedAt := now
              status := "active" }
          else x }
        let entry : ScanEntry :=
          { id := freshId st.ctr, sessionId := sessionId, path := pathStr,
            modifiedAt := modifiedAt, sizeBytes := some sizeBytes,
            sha256 := some sha, action := "updated", fileId := r0.id }
        ({ st with
            db := { db with scanEntries := db.scanEntries ++ [entry] }
            stats := { st.stats with updated := st.stats.updated + 1 }
            ctr := st.ctr + 1 }, none)
      | none =>
        -- added: new Item and new FileRecord, title seeded from the filename
        let itemId := freshId st.ctr
        let fileId := freshId (st.ctr + 1)
        let titleGuess := (rustPathStem f.path).map fun v => strReplace v "_" " "
        let item : Item :=
          { id := itemId, title := titleGuess, createdAt := now, updatedAt := now }
        let newRec : FileRecord :=
          { id := fileId, itemId := itemId, path := pathStr, filename := filename,
            extension := ext, sizeBytes := some sizeBytes, sha256 := some sha,
            hashAlgo := "sha256", modifiedAt := modifiedAt, status := "active",
            createdAt := now, updatedAt := now }
        let entry : ScanEntry :=
          { id := freshId (st.ctr + 2), sessionId := sessionId, path := pathStr,
            modifiedAt := modifiedAt, sizeBytes := some sizeBytes,
            sha256 := some sha, action := "added", fileId := fileId }
        ({ st with
            db := { st.db with
              items := st.db.items ++ [item]
              files := st.db.files ++ [newRec]
              scanEntries := st.db.scanEntries ++ [entry] }
            stats := { st.stats with added := st.stats.added + 1 }
            ctr := st.ctr + 3 }, none)

/-- The extension string computed by the walk loop:
`format!(".{}", path.extension().unwrap_or("")).to_lowercase()`. -/
def scanExt (f : DiskFile) : String :=
  strToLower ("." ++ (rustPathExtension f.path).getD "")

/-- The walk loop processes exactly the `.epub` and `.pdf` files. -/
def extOk (f : DiskFile) : Prop :=
  scanExt f = ".epub" ∨ scanExt f = ".pdf"

instance (f : DiskFile) : Decidable (extOk f) := by
  unfold extOk
  infer_instance

/-- The record the unchanged fast path looks for: the first non-inactive row
at the file's exact path, with size and modified time matching the disk. -/
def goodAt (st : ScanState) (f : DiskFile) : Prop :=
  ∃ r, st.db.files.find? (fun r => r.path = f.path ∧ r.status ≠ "inactive") = some r ∧
    r.sizeBytes = some f.size ∧ r.modifiedAt = f.mtime

/-- Invariant of a scan running over an initially empty record store: every
record is active, at a path already seen this pass, present on disk, and
hashed with sha256. -/
def ScanDbInv (diskPaths : List String) (st : ScanState) : Prop :=
  ∀ x ∈ st.db.files, x.status = "active" ∧ x.path ∈ st.seen ∧
    x.path ∈ diskPaths ∧ x.hashAlgo = "sha256"

/-- The body of the walk loop of `scan_folder_sync` for one directory entry:
extension filter, stat, `seen` bookkeeping, unchanged fast path (no
hashing), otherwise the hash branches. -/
def scanStep (diskPaths : List String) (sessionId : String) (now : Int)
    (st : ScanState) (f : DiskFile) : ScanState × Option String :=
  let ext := scanExt f
  if ext ≠ ".epub" ∧ ext ≠ ".pdf" then (st, none)
  else
    let filename := (rustFileName f.path).getD "file"
    let pathStr := f.path
    let st := { st with seen := pathStr :: st.seen }
    if ¬ f.statOk then (st, some "failed to read file metadata")
    else
      let sizeBytes := f.size
      let modifiedAt := f.mtime
      let existingByPath := st.db.files.find? fun r =>
        r.path = pathStr ∧ r.status ≠ "inactive"
      match existingByPath with
      | some r0 =>
        if r0.modifiedAt = modifiedAt ∧ r0.sizeBytes = some sizeBytes then
          (scanUnchanged sessionId now st r0 pathStr modifiedAt sizeBytes, none)
        else
          scanSlow diskPaths sessionId now st f filename pathStr ext sizeBytes
            modifiedAt existingByPath
      | none =>
        scanSlow diskPaths sessionId now st f filename pathStr ext sizeBytes
          modifiedAt existingByPath

/-- The walk loop: process files in order, stopping at the first hard
failure (whose error propagates out of `scan_folder_sync` via `?`). -/
def walkFold (diskPaths : List String) (sessionId : String) (now : Int) :
    ScanState → List DiskFile → ScanState × Option String
  | st, [] => (st, none)
  | st, f :: rest =>
    match scanStep diskPaths sessionId now st f with
    | (st', none) => walkFold diskPaths sessionId now st' rest
    | (st', some e) => (st', some e)

/-- One row of the missing pass: a row whose path was seen is skipped,
otherwise its record is marked `missing` and a `missing` entry logged. -/
def scanMissingStep (sessionId : String) (now : Int) (st : ScanState)
    (r : FileRecord) : ScanState :=
  if r.path ∈ st.seen then st
  else
    { st with
      db := { st.db with
        files := st.db.files.map fun x =>
          if x.id = r.id then { x with status := "missing", updatedAt := now } else x
        scanEntries := st.db.scanEntries ++ [{
          id := freshId st.ctr, sessionId := sessionId, path := r.path,
          modifiedAt := none, sizeBytes := none, sha256 := none,
          action := "missing", fileId := r.id }] }
      stats := { st.stats with missing := st.stats.missing + 1 }
      ctr := st.ctr + 1 }

/-- The missing pass: every active record under the root whose path was not
seen this pass is marked `missing` and logged. -/
def scanMissing (root sessionId : String) (now : Int) (st : ScanState) : ScanState :=
  let rows := st.db.files.filter fun r =>
    r.status = "active" ∧ strHasPrefix r.path root
  rows.foldl (scanMissingStep sessionId now) st

/-- The value returned by one scan invocation: final database, counters, the
number of `hash_file` calls, and the hard failure if one occurred. -/
structure ScanResult where
  db : DB
  stats : ScanStats
  hashed : Nat
  err : Option String
deriving Repr, DecidableEq

/-- The ScanSession row inserted at the start of a scan. -/
def startedSession (sessionId root : String) (now : Int) : ScanSession :=
  { id := sessionId, rootPath := root, startedAt := now,
    status := "running", endedAt := none }

/-- Model of `scan_folder_sync` (lib.rs:3010): insert a `running` ScanSession row,
walk the files, run the missing pass, and mark the session `success`.  A
hard failure mid-walk returns the error without updating the session row. -/
def scanFolderSync (diskPaths : List String) (walk : List DiskFile)
    (root : String) (db : DB) (now : Int) (sessionId : String) (ctr : Nat) :
    ScanResult :=
  let db := { db with
    scanSessions := db.scanSessions ++ [startedSession sessionId root now] }
  let init : ScanState :=
    { db := db, stats := ⟨0, 0, 0, 0, 0⟩, seen := [], hashed := 0, ctr := ctr }
  match walkFold diskPaths sessionId now init walk with
  | (st, some e) => { db := st.db, stats := st.stats, hashed := st.hashed, err := some e }
  | (st, none) =>
    let st := scanMissing root sessionId now st
    let dbFinal := { st.db with scanSessions := st.db.scanSessions.map fun s =>
      if s.id = sessionId then { s with status := "success", endedAt := some now } else s }
    { db := dbFinal, stats := st.stats, hashed := st.hashed, err := none }

/-- Status of a scan session row. -/
def sessionStatus (db : DB) (sessionId : String) : Option String :=
  (db.scanSessions.find? fun s => s.id = sessionId).map (·.status)

/-! ## Concrete instances used by counterexamples and witnesses -/

/-- A walk of one epub whose content cannot be hashed. -/
def c2Walk : List DiskFile :=
  [{ path := "/r/a.epub", size := 1, mtime := some 1, hash := none, statOk := true }]

/-- One file record at `/r/p` with stale metadata and a different hash, and
one at `/r/q` matching its on-disk content: the stale record shadows the
duplicate created by a first scan, so a second scan of the unchanged
directory hashes and adds again. -/
def c4Db : DB := { DB.empty with files := [
  { id := "r1", itemId := "i1", path := "/r/p.epub", filename := "p.epub",
    extension := ".epub", sizeBytes := some 2, sha256 := some "h2",
    hashAlgo := "sha256", modifiedAt := some 2, status := "active",
    createdAt := 0, updatedAt := 0 },
  { id := "r2", itemId := "i2", path := "/r/q.epub", filename := "q.epub",
    extension := ".epub", sizeBytes := some 1, sha256 := some "h",
    hashAlgo := "sha256", modifiedAt := some 1, status := "active",
    createdAt := 0, updatedAt := 0 }] }

def c4Walk : List DiskFile :=
  [{ path := "/r/p.epub", size := 1, mtime := some 1, hash := some "h", statOk := true },
   { path := "/r/q.epub", size := 1, mtime := some 1, hash := some "h", statOk := true }]

def c4Disk : List String := ["/r/p.epub", "/r/q.epub"]

/-- An original record at `/r/q` whose content also appears at `/r/p`. -/
def c6Orig : FileRecord :=
  { id := "o1", itemId := "i1", path := "/r/q.epub", filename := "q.epub",
    extension := ".epub", sizeBytes := some 1, sha256 := some "h",
    hashAlgo := "sha256", modifiedAt := some 1, status := "active",
    createdAt := 0, updatedAt := 0 }

def c6Db : DB := { DB.empty with files := [c6Orig] }

def c6Walk : List DiskFile :=
  [{ path := "/r/p.epub", size := 1, mtime := some 1, hash := some "h", statOk := true },
   { path := "/r/q.epub", size := 1, mtime := some 1, hash := some "h", statOk := true }]

def c6Disk : List String := ["/r/p.epub", "/r/q.epub"]

/-- A pending delete created first (`created_at = 1`). -/
def c3ChangeA : PendingChange :=
  { id := "a", fileId := "f-a", changeType := "delete", fromPath := some "/x/a",
    toPath := none, changesJson := none, status := "pending", createdAt := 1,
    appliedAt := none, error := none }

/-- A pending delete created second (`created_at = 2`). -/
def c3ChangeB : PendingChange :=
  { id := "b", fileId := "f-b", changeType := "delete", fromPath := some "/x/b",
    toPath := none, changesJson := none, status := "pending", createdAt := 2,
    appliedAt := none, error := none }

def c3Db : DB := { DB.empty with pendingChanges := [c3ChangeA, c3ChangeB] }

def c3Fs : FS := { files := [], unremovable := [], badEpubs := [] }

/-- Three pending deletes; the second targets a file whose removal fails. -/
def c3wDb : DB := { DB.empty with pendingChanges := [
  { id := "w1", fileId := "fw1", changeType := "delete", fromPath := some "/lib/1",
    toPath := none, changesJson := none, status := "pending", createdAt := 1,
    appliedAt := none, error := none },
  { id := "w2", fileId := "fw2", changeType := "delete", fromPath := some "/lib/2",
    toPath := none, changesJson := none, status := "pending", createdAt := 2,
    appliedAt := none, error := none },
  { id := "w3", fileId := "fw3", changeType := "delete", fromPath := some "/lib/3",
    toPath := none, changesJson := none, status := "pending", createdAt := 3,
    appliedAt := none, error := none }] }

def c3wFs : FS :=
  { files := ["/lib/1", "/lib/2", "/lib/3"], unremovable := ["/lib/2"], badEpubs := [] }

/-- One pending and one already-applied change, for the explicit-id path. -/
def c10Db : DB := { DB.empty with pendingChanges := [
  { id := "p1", fileId := "fp1", changeType := "delete", fromPath := some "/y/p1",
    toPath := none, changesJson := none, status := "pending", createdAt := 1,
    appliedAt := none, error := none },
  { id := "done1", fileId := "fd1", changeType := "delete", fromPath := some "/y/d1",
    toPath := none, changesJson := none, status := "applied", createdAt := 2,
    appliedAt := some 5, error := none }] }

def c9Change : PendingChange :=
  { id := "del1", fileId := "f9", changeType := "delete", fromPath := some "/z/f9.epub",
    toPath := none, changesJson := none, status := "pending", createdAt := 1,
    appliedAt := none, error := none }

def c9Db : DB := { DB.empty with
  files := [
    { id := "f9", itemId := "i9", path := "/z/f9.epub", filename := "f9.epub",
      extension := ".epub", sizeBytes := some 10, sha256 := some "h9",
      hashAlgo := "sha256", modifiedAt := some 3, status := "inactive",
      createdAt := 0, updatedAt := 0 }]
  issues := [
    { id := "iss9", itemId := "i9", fileId := "f9", type := "duplicate",
      message := "Duplicate content detected by hash.", severity := "warn",
      createdAt := 0, resolvedAt := none }] }

def c9Fs : FS := { files := ["/z/f9.epub"], unremovable := [], badEpubs := [] }

/-! # Theorems -/

/-- After `queueEpubStep` for row `r`, the file `r.id` has exactly one pending
`epub_meta` change and every other file keeps its previous count. -/
theorem countPendingOfType_queueEpubStep (now : Int) (json : String)
    (db : DB) (created : Int) (ctr : Nat) (r : FileRecord) (g : String) :
    countPendingOfType (queueEpubStep now json (db, created, ctr) r).1 "epub_meta" g =
      if g = r.id then 1 else countPendingOfType db "epub_meta" g := by
  unfold countPendingOfType queueEpubStep
  simp only [List.filter_append, List.length_append, List.filter_filter]
  by_cases hg : g = r.id
  · subst hg
    rw [if_pos rfl]
    have h1 : ∀ c ∈ db.pendingChanges,
        ¬((decide (c.fileId = r.id ∧ c.changeType = "epub_meta" ∧ c.status = "pending") &&
           decide (¬(c.fileId = r.id ∧ c.changeType = "epub_meta" ∧ c.status = "pending"))) = true) := by
      intro c _
      simp only [Bool.and_eq_true, decide_eq_true_eq]
      tauto
    rw [List.filter_eq_nil_iff.mpr h1]
    simp
  · rw [if_neg hg]
    have h1 : ∀ c ∈ db.pendingChanges,
        ((decide (c.fileId = g ∧ c.changeType = "epub_meta" ∧ c.status = "pending") &&
          decide (¬(c.fileId = r.id ∧ c.changeType = "epub_meta" ∧ c.status = "pending")))
          = decide (c.fileId = g ∧ c.changeType = "epub_meta" ∧ c.status = "pending")) := by
      intro c _
      by_cases hp : c.fileId = g ∧ c.changeType = "epub_meta" ∧ c.status = "pending"
      · have hq : ¬(c.fileId = r.id ∧ c.changeType = "epub_meta" ∧ c.status = "pending") := by
          intro hcontra
          exact hg (hp.1.symm.trans hcontra.1)
        rw [decide_eq_true hp, decide_eq_true hq, Bool.true_and]
      · rw [decide_eq_false hp, Bool.false_and]
    rw [List.filter_congr h1]
    have h2 : ¬ (r.id = g) := fun h => hg h.symm
    simp [h2]

/-- Folding `queueEpubStep` over any row list preserves the invariant that
every file has at most one pending `epub_meta` change. -/
theorem queueEpub_fold_invariant (now : Int) (json : String) (rows : List FileRecord) :
    ∀ (db : DB) (created : Int) (ctr : Nat),
      (∀ g, countPendingOfType db "epub_meta" g ≤ 1) →
      ∀ g, countPendingOfType
        (rows.foldl (queueEpubStep now json) (db, created, ctr)).1 "epub_meta" g ≤ 1 := by
  induction rows with
  | nil => intro db created ctr h g; exact h g
  | cons r rest ih =>
    intro db created ctr h g
    rw [List.foldl_cons]
    rcases hq : queueEpubStep now json (db, created, ctr) r with ⟨db₁, c₁, ctr₁⟩
    refine ih db₁ c₁ ctr₁ (fun g' => ?_) g
    have hstep := countPendingOfType_queueEpubStep now json db created ctr r g'
    rw [hq] at hstep
    rw [show (db₁, c₁, ctr₁).1 = db₁ from rfl] at hstep
    rw [hstep]
    split
    · exact le_refl 1
    · exact h g'

/-- Appending changes never lowers a pending count. -/
theorem countPendingOfType_le_organizeRenameStep (now : Int) (db : DB)
    (created : Int) (ctr : Nat) (entry : OrganizeEntry) (ty g : String) :
    countPendingOfType db ty g ≤
      countPendingOfType (organizeRenameStep now (db, created, ctr) entry).1 ty g := by
  unfold organizeRenameStep countPendingOfType
  by_cases he : entry.action = "skip"
  · simp [he]
  · simp only [he, if_false, List.filter_append, List.length_append]
    simp

/-- Folding `organizeRenameStep` never lowers a pending count. -/
theorem organizeRename_fold_mono (now : Int) (entries : List OrganizeEntry) :
    ∀ (db : DB) (created : Int) (ctr : Nat) (ty g : String),
      countPendingOfType db ty g ≤
        countPendingOfType (entries.foldl (organizeRenameStep now) (db, created, ctr)).1 ty g := by
  induction entries with
  | nil => intro db created ctr ty g; exact le_refl _
  | cons e rest ih =>
    intro db created ctr ty g
    rw [List.foldl_cons]
    rcases hq : organizeRenameStep now (db, created, ctr) e with ⟨db₁, c₁, ctr₁⟩
    have h1 := countPendingOfType_le_organizeRenameStep now db created ctr e ty g
    rw [hq] at h1
    exact le_trans h1 (ih db₁ c₁ ctr₁ ty g)

/-- Enqueueing a duplicate-resolution delete never lowers a pending count. -/
theorem countPendingOfType_le_resolveDupStep (keepFileId : String) (now : Int)
    (db : DB) (ctr : Nat) (fileId ty g : String) :
    countPendingOfType db ty g ≤
      countPendingOfType (resolveDupStep keepFileId now (db, ctr) fileId).1 ty g := by
  unfold resolveDupStep
  dsimp only
  by_cases hk : fileId = keepFileId
  · rw [if_pos hk]
  · rw [if_neg hk]
    unfold countPendingOfType
    dsimp only
    split
    · dsimp only
      simp only [List.filter_append, List.length_append]
      exact Nat.le_add_right _ _
    · exact le_refl _

/-- Folding `resolveDupStep` never lowers a pending count. -/
theorem resolveDup_fold_mono (keepFileId : String) (now : Int) (fileIds : List String) :
    ∀ (db : DB) (ctr : Nat) (ty g : String),
      countPendingOfType db ty g ≤
        countPendingOfType
          (List.foldl (resolveDupStep keepFileId now) (db, ctr) fileIds).1 ty g := by
  induction fileIds with
  | nil => intro db ctr ty g; exact le_refl _
  | cons f rest ih =>
    intro db ctr ty g
    rw [List.foldl_cons]
    rcases hq : resolveDupStep keepFileId now (db, ctr) f with ⟨db₁, ctr₁⟩
    have h1 := countPendingOfType_le_resolveDupStep keepFileId now db ctr f ty g
    rw [hq] at h1
    exact le_trans h1 (ih db₁ ctr₁ ty g)

/-- C1 counterexample: the claim says every enqueue first deletes any existing
pending change of the same type for the same file.  Enqueueing a rename from
an organize plan for file `f1`, which already has a pending rename, yields two
pending rename changes for `f1`; and resolving a duplicate group against file
`f2`, which already has a pending delete, yields two pending delete changes
for `f2`. -/
theorem C1_counterexample :
    countPendingOfType (generatePendingChangesFromOrganize c1Db [c1Entry] 5 0).1
      "rename" "f1" = 2 ∧
    countPendingOfType (resolveDuplicateGroupByFiles c1DelDb ["f2"] "keep" 5 0).1
      "delete" "f2" = 2 := by decide

/-- C1 (amended): only metadata-edit enqueues supersede.
`queue_epub_changes_for_item` deletes any existing pending `epub_meta` change
for the same file before inserting the new one, so it preserves the invariant
of at most one pending metadata-edit change per FileRecord; rename enqueues
from an organize plan and delete enqueues from duplicate resolution delete
nothing (no pending count ever decreases) and only accumulate pending
changes. -/
theorem C1_theorem (db : DB) (itemId : String) (cs : EpubChangeSet)
    (now : Int) (ctr : Nat)
    (h : ∀ g, countPendingOfType db "epub_meta" g ≤ 1) :
    (∀ g, countPendingOfType
        (queueEpubChangesForItem db itemId cs now ctr).1 "epub_meta" g ≤ 1) ∧
    (∀ entries ty g, countPendingOfType db ty g ≤
        countPendingOfType
          (generatePendingChangesFromOrganize db entries now ctr).1 ty g) ∧
    (∀ fileIds keepFileId ty g, countPendingOfType db ty g ≤
        countPendingOfType
          (resolveDuplicateGroupByFiles db fileIds keepFileId now ctr).1 ty g) := by
  refine ⟨?_, ?_, ?_⟩
  · intro g
    unfold queueEpubChangesForItem
    dsimp only
    split
    · exact h g
    · exact queueEpub_fold_invariant now (encodeEpubChangeSet cs) _ db 0 ctr h g
  · intro entries ty g
    exact organizeRename_fold_mono now entries db 0 ctr ty g
  · intro fileIds keepFileId ty g
    exact resolveDup_fold_mono keepFileId now fileIds db ctr ty g

/-- C1 witness: the amended theorem applied at a concrete input. -/
theorem C1_witness :
    (∀ g, countPendingOfType DB.empty "epub_meta" g ≤ 1) ∧
    ((∀ g, countPendingOfType
        (queueEpubChangesForItem DB.empty "i1"
          ⟨some "T", none, none, none⟩ 7 0).1 "epub_meta" g ≤ 1) ∧
     (∀ entries ty g, countPendingOfType DB.empty ty g ≤
        countPendingOfType
          (generatePendingChangesFromOrganize DB.empty entries 7 0).1 ty g) ∧
     (∀ fileIds keepFileId ty g, countPendingOfType DB.empty ty g ≤
        countPendingOfType
          (resolveDuplicateGroupByFiles DB.empty fileIds keepFileId 7 0).1 ty g)) :=
  have h : ∀ g, countPendingOfType DB.empty "epub_meta" g ≤ 1 := by
    intro g; simp [countPendingOfType, DB.empty]
  ⟨h, C1_theorem DB.empty "i1" ⟨some "T", none, none, none⟩ 7 0 h⟩

/-! ## Sorting lemmas for the batch-selection order -/

theorem insertByCreatedAt_perm (c : PendingChange) (l : List PendingChange) :
    (insertByCreatedAt c l).Perm (c :: l) := by
  induction l with
  | nil => exact List.Perm.refl _
  | cons d rest ih =>
    unfold insertByCreatedAt
    split
    · exact List.Perm.refl _
    · exact (ih.cons d).trans (List.Perm.swap c d rest)

theorem sortByCreatedAt_perm (l : List PendingChange) :
    (sortByCreatedAt l).Perm l := by
  induction l with
  | nil => exact List.Perm.refl _
  | cons c rest ih =>
    exact (insertByCreatedAt_perm c (sortByCreatedAt rest)).trans (ih.cons c)

theorem insertByCreatedAt_pairwise (c : PendingChange) (l : List PendingChange)
    (h : l.Pairwise fun a b => a.createdAt ≤ b.createdAt) :
    (insertByCreatedAt c l).Pairwise fun a b => a.createdAt ≤ b.createdAt := by
  induction l with
  | nil => simp [insertByCreatedAt]
  | cons d rest ih =>
    rw [List.pairwise_cons] at h
    unfold insertByCreatedAt
    split
    · rename_i hle
      rw [List.pairwise_cons]
      refine ⟨?_, List.pairwise_cons.mpr h⟩
      intro e he
      rcases List.mem_cons.mp he with rfl | hmem
      · exact hle
      · exact le_trans hle (h.1 e hmem)
    · rename_i hgt
      rw [List.pairwise_cons]
      refine ⟨?_, ih h.2⟩
      intro e he
      have hmem := (insertByCreatedAt_perm c rest).mem_iff.mp he
      rcases List.mem_cons.mp hmem with rfl | hmem'
      · exact le_of_not_le hgt
      · exact h.1 e hmem'

theorem sortByCreatedAt_pairwise (l : List PendingChange) :
    (sortByCreatedAt l).Pairwise fun a b => a.createdAt ≤ b.createdAt := by
  induction l with
  | nil => simp [sortByCreatedAt]
  | cons c rest ih => exact insertByCreatedAt_pairwise c (sortByCreatedAt rest) ih

/-! ## Behaviour of the apply loop -/

/-- Each loop iteration emits `processing` then exactly one terminal event and
bumps exactly one counter. -/
theorem applyStep_spec (now : Int) (st : ApplyState) (c : PendingChange) :
    ∃ t, (t = "done" ∨ t = "error") ∧
      (applyStep now st c).events = st.events ++ [(c.id, "processing"), (c.id, t)] ∧
      (applyStep now st c).stats.total = st.stats.total ∧
      (applyStep now st c).stats.skipped = st.stats.skipped ∧
      (applyStep now st c).stats.processed
        = st.stats.processed + (if t = "done" then 1 else 0) ∧
      (applyStep now st c).stats.errors
        = st.stats.errors + (if t = "error" then 1 else 0) := by
  unfold applyStep
  rcases h : applyChangeDispatch st.fs st.db c now with ⟨fs', db', res⟩
  cases res with
  | none =>
    refine ⟨"done", Or.inl rfl, ?_⟩
    simp [h]
  | some msg =>
    refine ⟨"error", Or.inr rfl, ?_⟩
    simp [h]

/-- Summary of one run of the apply loop over a selected change list: the
processing events cover exactly the selected changes in selection order, the
`processed`/`errors` counters count the `done`/`error` events, and every
change contributes exactly one terminal event. -/
theorem applyFold_spec (now : Int) (changes : List PendingChange) :
    ∀ st : ApplyState,
      ((changes.foldl (applyStep now) st).stats.total = st.stats.total) ∧
      ((changes.foldl (applyStep now) st).stats.skipped = st.stats.skipped) ∧
      (((changes.foldl (applyStep now) st).events.filter fun e => e.2 = "processing").map Prod.fst
        = ((st.events.filter fun e => e.2 = "processing").map Prod.fst) ++ changes.map (·.id)) ∧
      ((changes.foldl (applyStep now) st).stats.processed +
          (st.events.filter fun e => e.2 = "done").length
        = st.stats.processed +
          ((changes.foldl (applyStep now) st).events.filter fun e => e.2 = "done").length) ∧
      ((changes.foldl (applyStep now) st).stats.errors +
          (st.events.filter fun e => e.2 = "error").length
        = st.stats.errors +
          ((changes.foldl (applyStep now) st).events.filter fun e => e.2 = "error").length) ∧
      ((changes.foldl (applyStep now) st).stats.processed +
          (changes.foldl (applyStep now) st).stats.errors
        = st.stats.processed + st.stats.errors + changes.length) := by
  induction changes with
  | nil =>
    intro st
    refine ⟨rfl, rfl, by simp, rfl, rfl, by simp⟩
  | cons c rest ih =>
    intro st
    rw [List.foldl_cons]
    obtain ⟨t, ht, hev, htot, hskip, hproc, herr⟩ := applyStep_spec now st c
    obtain ⟨ihtot, ihskip, ihev, ihproc, iherr, ihsum⟩ := ih (applyStep now st c)
    have hlen : (c :: rest).length = rest.length + 1 := rfl
    rcases ht with rfl | rfl
    · have h1 : ((applyStep now st c).events.filter fun e => e.2 = "done").length
          = (st.events.filter fun e => e.2 = "done").length + 1 := by
        rw [hev]; simp [List.filter_append]
      have h2 : ((applyStep now st c).events.filter fun e => e.2 = "error").length
          = (st.events.filter fun e => e.2 = "error").length := by
        rw [hev]; simp [List.filter_append]
      have hp : (applyStep now st c).stats.processed = st.stats.processed + 1 := by
        rw [hproc]; simp
      have he : (applyStep now st c).stats.errors = st.stats.errors := by
        rw [herr]; simp
      refine ⟨by rw [ihtot, htot], by rw [ihskip, hskip], ?_, by omega, by omega, by omega⟩
      rw [ihev, hev]
      simp [List.filter_append]
    · have h1 : ((applyStep now st c).events.filter fun e => e.2 = "done").length
          = (st.events.filter fun e => e.2 = "done").length := by
        rw [hev]; simp [List.filter_append]
      have h2 : ((applyStep now st c).events.filter fun e => e.2 = "error").length
          = (st.events.filter fun e => e.2 = "error").length + 1 := by
        rw [hev]; simp [List.filter_append]
      have hp : (applyStep now st c).stats.processed = st.stats.processed := by
        rw [hproc]; simp
      have he : (applyStep now st c).stats.errors = st.stats.errors + 1 := by
        rw [herr]; simp
      refine ⟨by rw [ihtot, htot], by rw [ihskip, hskip], ?_, by omega, by omega, by omega⟩
      rw [ihev, hev]
      simp [List.filter_append]

/-- C3 counterexample: with an explicit id list the batch is processed in the
order of the list, not in ascending creation-time order.  Here the list
`["b", "a"]` selects a change created at time 2 before one created at
time 1. -/
theorem C3_counterexample :
    ((applyPendingChangesSync c3Fs c3Db ["b", "a"] 10).events.filter
        (fun e => e.2 = "processing")).map Prod.fst = ["b", "a"] ∧
    (selectChanges c3Db ["b", "a"]).map (·.createdAt) = [2, 1] ∧
    ¬ ((selectChanges c3Db ["b", "a"]).map (·.createdAt)).Pairwise (· ≤ ·) := by
  decide

/-- C3 (amended): an empty id list selects all pending changes and processes
them in ascending creation-time order; an explicit id list is processed in
the order given.  Every selected change is processed (one `processing` event
each, in selection order) regardless of earlier failures, and the terminal
summary counts the successes (`done` events) in `processed` and the failures
(`error` events) in `errors`, which partition the batch. -/
theorem C3_theorem (fs : FS) (db : DB) (ids : List String) (now : Int) :
    (ids = [] →
      (selectChanges db ids).Perm (db.pendingChanges.filter fun c => c.status = "pending") ∧
      (selectChanges db ids).Pairwise fun a b => a.createdAt ≤ b.createdAt) ∧
    (((applyPendingChangesSync fs db ids now).events.filter
        fun e => e.2 = "processing").map Prod.fst = (selectChanges db ids).map (·.id)) ∧
    (applyPendingChangesSync fs db ids now).stats.total = (selectChanges db ids).length ∧
    (applyPendingChangesSync fs db ids now).stats.processed
      = ((applyPendingChangesSync fs db ids now).events.filter
          fun e => e.2 = "done").length ∧
    (applyPendingChangesSync fs db ids now).stats.errors
      = ((applyPendingChangesSync fs db ids now).events.filter
          fun e => e.2 = "error").length ∧
    (applyPendingChangesSync fs db ids now).stats.processed
      + (applyPendingChangesSync fs db ids now).stats.errors
      = (selectChanges db ids).length := by
  have hr : applyPendingChangesSync fs db ids now
      = (selectChanges db ids).foldl (applyStep now)
        { db := db, fs := fs,
          stats := { total := (selectChanges db ids).length, processed := 0,
                     skipped := 0, errors := 0 },
          events := [] } := rfl
  obtain ⟨htot, hskip, hev, hproc, herr, hsum⟩ :=
    applyFold_spec now (selectChanges db ids)
      { db := db, fs := fs,
        stats := { total := (selectChanges db ids).length, processed := 0,
                   skipped := 0, errors := 0 },
        events := [] }
  refine ⟨?_, ?_, ?_, ?_, ?_, ?_⟩
  · intro h
    subst h
    have hsel : selectChanges db [] =
        sortByCreatedAt (db.pendingChanges.filter fun c => c.status = "pending") := rfl
    rw [hsel]
    exact ⟨sortByCreatedAt_perm _, sortByCreatedAt_pairwise _⟩
  · rw [hr]
    simpa using hev
  · rw [hr, htot]
  · rw [hr]
    simpa using hproc
  · rw [hr]
    simpa using herr
  · rw [hr]
    simpa using hsum

/-- C3 witness: a batch of three pending deletes where the second fails
yields `processed = 2`, `errors = 1`, instantiating the amended theorem. -/
theorem C3_witness :
    (applyPendingChangesSync c3wFs c3wDb [] 100).stats.processed = 2 ∧
    (applyPendingChangesSync c3wFs c3wDb [] 100).stats.errors = 1 ∧
    ((([] : List String) = [] →
      (selectChanges c3wDb []).Perm
        (c3wDb.pendingChanges.filter fun c => c.status = "pending") ∧
      (selectChanges c3wDb []).Pairwise fun a b => a.createdAt ≤ b.createdAt) ∧
    (((applyPendingChangesSync c3wFs c3wDb [] 100).events.filter
        fun e => e.2 = "processing").map Prod.fst = (selectChanges c3wDb []).map (·.id)) ∧
    (applyPendingChangesSync c3wFs c3wDb [] 100).stats.total
      = (selectChanges c3wDb []).length ∧
    (applyPendingChangesSync c3wFs c3wDb [] 100).stats.processed
      = ((applyPendingChangesSync c3wFs c3wDb [] 100).events.filter
          fun e => e.2 = "done").length ∧
    (applyPendingChangesSync c3wFs c3wDb [] 100).stats.errors
      = ((applyPendingChangesSync c3wFs c3wDb [] 100).events.filter
          fun e => e.2 = "error").length ∧
    (applyPendingChangesSync c3wFs c3wDb [] 100).stats.processed
      + (applyPendingChangesSync c3wFs c3wDb [] 100).stats.errors
      = (selectChanges c3wDb []).length) :=
  ⟨by decide, by decide, C3_theorem c3wFs c3wDb [] 100⟩

/-- No applier touches the `pending_changes` table from inside the dispatch:
only the loop's own status bookkeeping writes to it. -/
theorem applyChangeDispatch_pendingChanges (fs : FS) (db : DB)
    (c : PendingChange) (now : Int) :
    ((applyChangeDispatch fs db c now).2.1).pendingChanges = db.pendingChanges := by
  unfold applyChangeDispatch applyRenameChange applyEpubChange applyDeleteChange
    FS.renameFile FS.removeFile
  repeat' first
    | rfl
    | split
    | dsimp only

/-- A pending-change row whose id differs from the processed change's id
survives one loop iteration untouched. -/
theorem applyStep_preserves_row (now : Int) (st : ApplyState)
    (ch c : PendingChange) (hc : c ∈ st.db.pendingChanges) (hid : ch.id ≠ c.id) :
    c ∈ (applyStep now st ch).db.pendingChanges := by
  unfold applyStep
  rcases h : applyChangeDispatch st.fs st.db ch now with ⟨fs', db', res⟩
  have hdp : db'.pendingChanges = st.db.pendingChanges := by
    have := applyChangeDispatch_pendingChanges st.fs st.db ch now
    rw [h] at this
    exact this
  have hfix : ∀ f : PendingChange → PendingChange,
      (∀ x, x.id ≠ ch.id → f x = x) → c ∈ db'.pendingChanges.map f := by
    intro f hf
    rw [hdp]
    have : f c = c := hf c (fun hcc => hid hcc.symm)
    exact this ▸ List.mem_map_of_mem f hc
  cases res with
  | none =>
    simp only [h]
    exact hfix _ (fun x hx => by rw [if_neg hx])
  | some msg =>
    simp only [h]
    exact hfix _ (fun x hx => by rw [if_neg hx])

/-- Rows whose ids are hit by none of the processed changes survive the whole
batch untouched. -/
theorem applyFold_preserves_row (now : Int) (changes : List PendingChange) :
    ∀ (st : ApplyState) (c : PendingChange), c ∈ st.db.pendingChanges →
      (∀ ch ∈ changes, ch.id ≠ c.id) →
      c ∈ ((changes.foldl (applyStep now) st).db.pendingChanges) := by
  induction changes with
  | nil => intro st c hc _; exact hc
  | cons ch rest ih =>
    intro st c hc h
    rw [List.foldl_cons]
    exact ih (applyStep now st ch) c
      (applyStep_preserves_row now st ch c hc (h ch (List.mem_cons_self ch rest)))
      (fun ch' hch' => h ch' (List.mem_cons_of_mem ch hch'))

/-- Every change selected through an explicit id list is a pending row of the
database, found under one of the given ids. -/
theorem selectChanges_mem (db : DB) (ids : List String) (hne : ids ≠ [])
    (c : PendingChange) (hc : c ∈ selectChanges db ids) :
    c ∈ db.pendingChanges ∧ c.status = "pending" ∧ c.id ∈ ids := by
  have hne' : ids.isEmpty = false := by
    cases ids with
    | nil => exact absurd rfl hne
    | cons a l => rfl
  rw [selectChanges, hne'] at hc
  simp only [Bool.false_eq_true, if_false, List.mem_filterMap] at hc
  obtain ⟨id, hid, hfind⟩ := hc
  have hmem := List.mem_of_find?_eq_some hfind
  have hp := List.find?_some hfind
  simp only [decide_eq_true_eq] at hp
  exact ⟨hmem, hp.1, hp.2 ▸ hid⟩

/-- C10: with a non-empty explicit id list only rows whose status is
`pending` are loaded; ids with no pending row are silently skipped and are
not part of the batch total; rows that are not pending (already applied,
errored) are never processed and survive unmodified. -/
theorem C10_theorem (fs : FS) (db : DB) (ids : List String) (now : Int)
    (hnodup : (db.pendingChanges.map (·.id)).Nodup) (hne : ids ≠ []) :
    (∀ c ∈ selectChanges db ids, c.status = "pending") ∧
    (∀ id ∈ ids, (∀ c ∈ db.pendingChanges, ¬(c.status = "pending" ∧ c.id = id)) →
      id ∉ (selectChanges db ids).map (·.id)) ∧
    (applyPendingChangesSync fs db ids now).stats.total = (selectChanges db ids).length ∧
    (selectChanges db ids).length ≤ ids.length ∧
    (∀ c ∈ db.pendingChanges, c.status ≠ "pending" →
      c ∈ (applyPendingChangesSync fs db ids now).db.pendingChanges ∧
      (c.id, "processing") ∉ (applyPendingChangesSync fs db ids now).events) := by
  have hne' : ids.isEmpty = false := by
    cases ids with
    | nil => exact absurd rfl hne
    | cons a l => rfl
  have hr : applyPendingChangesSync fs db ids now
      = (selectChanges db ids).foldl (applyStep now)
        { db := db, fs := fs,
          stats := { total := (selectChanges db ids).length, processed := 0,
                     skipped := 0, errors := 0 },
          events := [] } := rfl
  obtain ⟨htot, hskip, hev, hproc, herr, hsum⟩ :=
    applyFold_spec now (selectChanges db ids)
      { db := db, fs := fs,
        stats := { total := (selectChanges db ids).length, processed := 0,
                   skipped := 0, errors := 0 },
        events := [] }
  have hselne : ∀ c ∈ selectChanges db ids, c.id ∈ ids ∧ c ∈ db.pendingChanges ∧
      c.status = "pending" := by
    intro c hc
    obtain ⟨h1, h2, h3⟩ := selectChanges_mem db ids hne c hc
    exact ⟨h3, h1, h2⟩
  refine ⟨?_, ?_, ?_, ?_, ?_⟩
  · intro c hc
    exact (selectChanges_mem db ids hne c hc).2.1
  · intro id _ hno hmem
    obtain ⟨c, hc, hcid⟩ := List.mem_map.mp hmem
    obtain ⟨hcdb, hcst, _⟩ := selectChanges_mem db ids hne c hc
    exact hno c hcdb ⟨hcst, hcid⟩
  · rw [hr, htot]
  · rw [selectChanges, hne']
    simp only [Bool.false_eq_true, if_false]
    exact List.length_filterMap_le _ _
  · intro c hc hst
    have hnosel : ∀ ch ∈ selectChanges db ids, ch.id ≠ c.id := by
      intro ch hch heq
      obtain ⟨_, hchdb, hchst⟩ := hselne ch hch
      have : ch = c := List.inj_on_of_nodup_map hnodup hchdb hc heq
      exact hst (this ▸ hchst)
    constructor
    · rw [hr]
      exact applyFold_preserves_row now (selectChanges db ids) _ c hc hnosel
    · intro hmem
      have hcid : c.id ∈ ((applyPendingChangesSync fs db ids now).events.filter
          fun e => e.2 = "processing").map Prod.fst := by
        refine List.mem_map.mpr ⟨(c.id, "processing"), ?_, rfl⟩
        refine List.mem_filter.mpr ⟨hmem, by simp⟩
      rw [hr] at hcid
      rw [hev] at hcid
      simp only [List.filter_nil, List.map_nil, List.nil_append] at hcid
      obtain ⟨ch, hch, hchid⟩ := List.mem_map.mp hcid
      exact hnosel ch hch hchid

/-- C10 witness: ids `["p1", "done1", "ghost"]` select only the pending row
`p1`; the applied row `done1` and the unknown id `ghost` are skipped. -/
theorem C10_witness :
    ((c10Db.pendingChanges.map (·.id)).Nodup ∧ (["p1", "done1", "ghost"] : List String) ≠ []) ∧
    ((∀ c ∈ selectChanges c10Db ["p1", "done1", "ghost"], c.status = "pending") ∧
    (∀ id ∈ ["p1", "done1", "ghost"],
      (∀ c ∈ c10Db.pendingChanges, ¬(c.status = "pending" ∧ c.id = id)) →
      id ∉ (selectChanges c10Db ["p1", "done1", "ghost"]).map (·.id)) ∧
    (applyPendingChangesSync c3Fs c10Db ["p1", "done1", "ghost"] 50).stats.total
      = (selectChanges c10Db ["p1", "done1", "ghost"]).length ∧
    (selectChanges c10Db ["p1", "done1", "ghost"]).length
      ≤ (["p1", "done1", "ghost"] : List String).length ∧
    (∀ c ∈ c10Db.pendingChanges, c.status ≠ "pending" →
      c ∈ (applyPendingChangesSync c3Fs c10Db ["p1", "done1", "ghost"] 50).db.pendingChanges ∧
      (c.id, "processing")
        ∉ (applyPendingChangesSync c3Fs c10Db ["p1", "done1", "ghost"] 50).events)) :=
  ⟨⟨by decide, by decide⟩,
    C10_theorem c3Fs c10Db ["p1", "done1", "ghost"] 50 (by decide) (by decide)⟩

/-- C9: applying a delete change is idempotent on a missing file (success),
restores the FileRecord to `active` on any other removal error (reported as
an error), and on success marks the FileRecord `inactive` and resolves every
`duplicate` issue referencing it. -/
theorem C9_theorem (fs : FS) (db : DB) (change : PendingChange) (now : Int)
    (p : String) (hp : change.fromPath = some p) :
    (p ∉ fs.files →
      (applyDeleteChange fs db change now).2.2 = none ∧
      (applyDeleteChange fs db change now).1 = fs ∧
      (∀ r ∈ db.files, r.id = change.fileId →
        { r with status := "inactive", updatedAt := now }
          ∈ (applyDeleteChange fs db change now).2.1.files) ∧
      (∀ i ∈ db.issues, i.fileId = change.fileId → i.type = "duplicate" →
        { i with resolvedAt := some now }
          ∈ (applyDeleteChange fs db change now).2.1.issues)) ∧
    (p ∈ fs.files → p ∈ fs.unremovable →
      (applyDeleteChange fs db change now).2.2
        = some ("Could not delete file " ++ p) ∧
      (applyDeleteChange fs db change now).1 = fs ∧
      (∀ r ∈ db.files, r.id = change.fileId →
        { r with status := "active", updatedAt := now }
          ∈ (applyDeleteChange fs db change now).2.1.files) ∧
      (applyDeleteChange fs db change now).2.1.issues = db.issues) ∧
    (p ∈ fs.files → p ∉ fs.unremovable →
      (applyDeleteChange fs db change now).2.2 = none ∧
      (applyDeleteChange fs db change now).1.files = fs.files.erase p ∧
      (∀ r ∈ db.files, r.id = change.fileId →
        { r with status := "inactive", updatedAt := now }
          ∈ (applyDeleteChange fs db change now).2.1.files) ∧
      (∀ i ∈ db.issues, i.fileId = change.fileId → i.type = "duplicate" →
        { i with resolvedAt := some now }
          ∈ (applyDeleteChange fs db change now).2.1.issues)) := by
  refine ⟨?_, ?_, ?_⟩
  · intro h1
    have hd : applyDeleteChange fs db change now =
        (fs,
         { db with
            files := db.files.map fun r =>
              if r.id = change.fileId then
                { r with status := "inactive", updatedAt := now }
              else r
            issues := db.issues.map fun i =>
              if i.fileId = change.fileId ∧ i.type = "duplicate" then
                { i with resolvedAt := some now }
              else i },
         none) := by
      unfold applyDeleteChange FS.removeFile
      rw [hp]
      simp [h1]
    rw [hd]
    refine ⟨rfl, rfl, ?_, ?_⟩
    · intro r hr hid
      have hmem := List.mem_map_of_mem
        (fun r : FileRecord =>
          if r.id = change.fileId then { r with status := "inactive", updatedAt := now }
          else r) hr
      dsimp only at hmem ⊢
      rw [if_pos hid] at hmem
      exact hmem
    · intro i hi hif hit
      have hmem := List.mem_map_of_mem
        (fun i : Issue =>
          if i.fileId = change.fileId ∧ i.type = "duplicate" then
            { i with resolvedAt := some now }
          else i) hi
      dsimp only at hmem ⊢
      rw [if_pos ⟨hif, hit⟩] at hmem
      exact hmem
  · intro h1 h2
    have hd : applyDeleteChange fs db change now =
        (fs,
         { db with
            files := db.files.map fun r =>
              if r.id = change.fileId then
                { r with status := "active", updatedAt := now }
              else r },
         some ("Could not delete file " ++ p)) := by
      unfold applyDeleteChange FS.removeFile
      rw [hp]
      simp [h1, h2]
    rw [hd]
    refine ⟨rfl, rfl, ?_, rfl⟩
    intro r hr hid
    have hmem := List.mem_map_of_mem
      (fun r : FileRecord =>
        if r.id = change.fileId then { r with status := "active", updatedAt := now }
        else r) hr
    dsimp only at hmem ⊢
    rw [if_pos hid] at hmem
    exact hmem
  · intro h1 h2
    have hd : applyDeleteChange fs db change now =
        ({ fs with files := fs.files.erase p },
         { db with
            files := db.files.map fun r =>
              if r.id = change.fileId then
                { r with status := "inactive", updatedAt := now }
              else r
            issues := db.issues.map fun i =>
              if i.fileId = change.fileId ∧ i.type = "duplicate" then
                { i with resolvedAt := some now }
              else i },
         none) := by
      unfold applyDeleteChange FS.removeFile
      rw [hp]
      simp [h1, h2]
    rw [hd]
    refine ⟨rfl, rfl, ?_, ?_⟩
    · intro r hr hid
      have hmem := List.mem_map_of_mem
        (fun r : FileRecord =>
          if r.id = change.fileId then { r with status := "inactive", updatedAt := now }
          else r) hr
      dsimp only at hmem ⊢
      rw [if_pos hid] at hmem
      exact hmem
    · intro i hi hif hit
      have hmem := List.mem_map_of_mem
        (fun i : Issue =>
          if i.fileId = change.fileId ∧ i.type = "duplicate" then
            { i with resolvedAt := some now }
          else i) hi
      dsimp only at hmem ⊢
      rw [if_pos ⟨hif, hit⟩] at hmem
      exact hmem

/-- C9 witness: the theorem applied to a delete change whose file exists and
is removable. -/
theorem C9_witness :
    c9Change.fromPath = some "/z/f9.epub" ∧
    ("/z/f9.epub" ∈ c9Fs.files ∧ "/z/f9.epub" ∉ c9Fs.unremovable) ∧
    ((applyDeleteChange c9Fs c9Db c9Change 9).2.2 = none ∧
     (applyDeleteChange c9Fs c9Db c9Change 9).1.files = c9Fs.files.erase "/z/f9.epub") :=
  have h := C9_theorem c9Fs c9Db c9Change 9 "/z/f9.epub" (by decide)
  have h1 : "/z/f9.epub" ∈ c9Fs.files := by decide
  have h2 : "/z/f9.epub" ∉ c9Fs.unremovable := by decide
  ⟨by decide, ⟨h1, h2⟩, (h.2.2 h1 h2).1, (h.2.2 h1 h2).2.1⟩

/-! ## Collision resolution -/

/-- Any number below its fuel is below ten to the number of digits its
rendering produces. -/
theorem toDigitsCore_lt : ∀ (f n : Nat), n < f →
    n < 10 ^ (Nat.toDigitsCore 10 f n []).length := by
  intro f
  induction f with
  | zero => intro n h; omega
  | succ f ih =>
    intro n h
    rw [Nat.toDigitsCore]
    by_cases h10 : n / 10 = 0
    · have hn : n < 10 := (Nat.div_eq_zero_iff (by norm_num)).mp h10
      simp only [h10, if_pos rfl]
      simpa using hn
    · rw [if_neg h10]
      have hlen : (Nat.toDigitsCore 10 f (n / 10) [Nat.digitChar (n % 10)]).length
          = (Nat.toDigitsCore 10 f (n / 10) []).length + 1 :=
        Nat.toDigitsCore_lens_eq 10 f (n / 10) _ []
      rw [hlen]
      have hpos : 0 < n := by
        rcases Nat.eq_zero_or_pos n with rfl | hp
        · simp at h10
        · exact hp
      have hlt : n / 10 < f := by
        have hd : n / 10 < n := Nat.div_lt_self hpos (by norm_num)
        omega
      have hih := ih (n / 10) hlt
      have hdm := Nat.div_add_mod n 10
      have hmod : n % 10 < 10 := Nat.mod_lt _ (by norm_num)
      rw [pow_succ]
      generalize (Nat.toDigitsCore 10 f (n / 10) []).length = L at hih ⊢
      generalize hA : (10 : Nat) ^ L = A at hih ⊢
      omega

/-- Every number is below ten to the length of its decimal rendering. -/
theorem lt_ten_pow_repr_length (n : Nat) : n < 10 ^ (Nat.repr n).length := by
  have h := toDigitsCore_lt (n + 1) n (Nat.lt_succ_self n)
  simpa [Nat.repr, Nat.toDigits, String.length, List.asString] using h

theorem le_maxStringLength {l : List String} {s : String} (h : s ∈ l) :
    s.length ≤ maxStringLength l := by
  induction l with
  | nil => cases h
  | cons a rest ih =>
    rcases List.mem_cons.mp h with rfl | hmem
    · exact le_max_left _ _
    · exact le_trans (ih hmem) (le_max_right _ _)

theorem repr_length_le_collisionName (stem ext : String) (i : Nat) :
    (Nat.repr i).length ≤ (collisionName stem ext i).length := by
  unfold collisionName
  split <;> simp [String.length_append] <;> omega

theorem length_le_joinPath (a b : String) : b.length ≤ (joinPath a b).length := by
  unfold joinPath
  split
  · exact le_refl _
  · split
    · exact le_refl _
    · split <;> simp [String.length_append]

theorem repr_length_le_collisionCandidate (base stem ext : String) (i : Nat) :
    (Nat.repr i).length ≤ (collisionCandidate base stem ext i).length := by
  unfold collisionCandidate withFileName
  have h := repr_length_le_collisionName stem ext i
  split
  · exact le_trans h (length_le_joinPath _ _)
  · exact h

/-- A free candidate index always exists: an index with more digits than any
existing path yields a candidate longer than every existing path. -/
theorem collisionCandidate_free (existing : List String) (base stem ext : String) :
    ∃ j : Nat, j < 10 ^ maxStringLength existing + 1 ∧
      collisionCandidate base stem ext (1 + j) ∉ existing := by
  have hpow : 1 ≤ 10 ^ maxStringLength existing :=
    Nat.one_le_pow _ _ (by norm_num)
  refine ⟨10 ^ maxStringLength existing - 1, by omega, fun hmem => ?_⟩
  have h1 : 1 + (10 ^ maxStringLength existing - 1)
      = 10 ^ maxStringLength existing := by omega
  rw [h1] at hmem
  have hlen := le_maxStringLength hmem
  have hrl := lt_ten_pow_repr_length (10 ^ maxStringLength existing)
  have hge : maxStringLength existing
      < (Nat.repr (10 ^ maxStringLength existing)).length := by
    by_contra hcon
    push_neg at hcon
    have := Nat.pow_le_pow_right (n := 10) (by norm_num) hcon
    omega
  have hc := repr_length_le_collisionCandidate base stem ext
    (10 ^ maxStringLength existing)
  omega

/-- The collision loop, given enough fuel to reach a free candidate, returns
the first free candidate at an index at least its start index. -/
theorem resolveCollisionLoop_spec (existing : List String) (base stem ext : String) :
    ∀ (fuel i : Nat),
      (∃ j, j < fuel ∧ collisionCandidate base stem ext (i + j) ∉ existing) →
      resolveCollisionLoop existing base stem ext fuel i ∉ existing ∧
      ∃ k, i ≤ k ∧
        resolveCollisionLoop existing base stem ext fuel i
          = collisionCandidate base stem ext k ∧
        ∀ m, i ≤ m → m < k → collisionCandidate base stem ext m ∈ existing := by
  intro fuel
  induction fuel with
  | zero =>
    intro i h
    obtain ⟨j, hj, _⟩ := h
    omega
  | succ fuel ih =>
    intro i h
    obtain ⟨j, hj, hfree⟩ := h
    rw [resolveCollisionLoop]
    by_cases hc : collisionCandidate base stem ext i ∈ existing
    · rw [if_pos hc]
      have hj' : ∃ j', j' < fuel ∧
          collisionCandidate base stem ext ((i + 1) + j') ∉ existing := by
        rcases Nat.eq_zero_or_pos j with rfl | hjpos
        · exact absurd hc (by simpa using hfree)
        · refine ⟨j - 1, by omega, ?_⟩
          have heq : (i + 1) + (j - 1) = i + j := by omega
          rw [heq]
          exact hfree
      obtain ⟨hnot, k, hk, heq, hall⟩ := ih (i + 1) hj'
      refine ⟨hnot, k, by omega, heq, fun m hm1 hm2 => ?_⟩
      rcases Nat.eq_or_lt_of_le hm1 with rfl | hlt
      · exact hc
      · exact hall m hlt hm2
    · rw [if_neg hc]
      exact ⟨hc, i, le_refl i, rfl, fun m hm1 hm2 => absurd (lt_of_le_of_lt hm1 hm2)
        (lt_irrefl i)⟩

/-- C8: collision resolution returns `root/relative` when it is free, and
otherwise the first candidate `stem [i]` (`i` counting up from 1, extension
kept) that does not exist; in either case the returned path collides with no
existing path. -/
theorem C8_theorem (existing : List String) (root rel : String) :
    resolveCollision existing root rel ∉ existing ∧
    (joinPath root rel ∉ existing →
      resolveCollision existing root rel = joinPath root rel) ∧
    (joinPath root rel ∈ existing →
      ∃ k, 1 ≤ k ∧
        resolveCollision existing root rel
          = collisionCandidate (joinPath root rel)
              ((rustPathStem (joinPath root rel)).getD "file")
              ((rustPathExtension (joinPath root rel)).getD "") k ∧
        ∀ m, 1 ≤ m → m < k →
          collisionCandidate (joinPath root rel)
              ((rustPathStem (joinPath root rel)).getD "file")
              ((rustPathExtension (joinPath root rel)).getD "") m ∈ existing) := by
  by_cases hb : joinPath root rel ∈ existing
  · have hr : resolveCollision existing root rel
        = resolveCollisionLoop existing (joinPath root rel)
            ((rustPathStem (joinPath root rel)).getD "file")
            ((rustPathExtension (joinPath root rel)).getD "")
            (10 ^ maxStringLength existing + 1) 1 := by
      unfold resolveCollision
      rw [if_neg (by simpa using hb)]
    obtain ⟨j, hj, hfree⟩ := collisionCandidate_free existing (joinPath root rel)
      ((rustPathStem (joinPath root rel)).getD "file")
      ((rustPathExtension (joinPath root rel)).getD "")
    obtain ⟨hnot, k, hk, heq, hall⟩ := resolveCollisionLoop_spec existing
      (joinPath root rel)
      ((rustPathStem (joinPath root rel)).getD "file")
      ((rustPathExtension (joinPath root rel)).getD "")
      (10 ^ maxStringLength existing + 1) 1 ⟨j, hj, hfree⟩
    rw [hr]
    exact ⟨hnot, fun hcon => absurd hb hcon,
      fun _ => ⟨k, hk, heq, hall⟩⟩
  · have hr : resolveCollision existing root rel = joinPath root rel := by
      unfold resolveCollision
      rw [if_pos (by simpa using hb)]
    rw [hr]
    exact ⟨hb, fun _ => rfl, fun hcon => absurd hcon hb⟩

/-- C8 witness: resolving into a root already holding `Title.epub` and
`Title [1].epub` yields `Title [2].epub`. -/
theorem C8_witness :
    (joinPath "/lib" "Title.epub" ∉ (["/lib/Title.epub", "/lib/Title [1].epub"] : List String) →
      resolveCollision ["/lib/Title.epub", "/lib/Title [1].epub"] "/lib" "Title.epub"
        = joinPath "/lib" "Title.epub") ∧
    resolveCollision ["/lib/Title.epub", "/lib/Title [1].epub"] "/lib" "Title.epub"
      ∉ (["/lib/Title.epub", "/lib/Title [1].epub"] : List String) :=
  have h := C8_theorem ["/lib/Title.epub", "/lib/Title [1].epub"] "/lib" "Title.epub"
  ⟨h.2.1, h.1⟩

/-! ## Skip-equivalence in planning -/

/-- C7: in `move` or `copy` mode, a file whose proposed target is equivalent
to its current source path — equal as strings, equal after canonicalization,
or with the same parent and the same stem modulo a trailing bracketed
collision suffix — is planned as `skip`. -/
theorem C7_theorem (canon : String → Option String) (existing : List String)
    (mode libraryRoot template fileId sourcePath extension : String)
    (title : Option String) (publishedYear : Option Int)
    (authors isbn13 : Option String)
    (_hm : mode = "move" ∨ mode = "copy")
    (heq :
      sourcePath
        = proposedTargetFor libraryRoot template title publishedYear authors isbn13 extension ∨
      (∃ c, canon sourcePath = some c ∧
        canon (proposedTargetFor libraryRoot template title publishedYear authors
          isbn13 extension) = some c) ∨
      ((∃ par,
          rustParent (proposedTargetFor libraryRoot template title publishedYear
            authors isbn13 extension) = some par ∧
          rustParent sourcePath = some par) ∧
       (∃ stem,
          rustPathStem (proposedTargetFor libraryRoot template title publishedYear
            authors isbn13 extension) = some stem ∧
          (rustPathStem sourcePath = some stem ∨
            (rustPathStem sourcePath).bind stripCollisionSuffix = some stem)))) :
    (planEntryFor canon existing mode libraryRoot template fileId sourcePath
      extension title publishedYear authors isbn13).action = "skip" := by
  unfold planEntryFor
  dsimp only
  have hsame : sourcePath
        = proposedTargetFor libraryRoot template title publishedYear authors isbn13 extension ∨
      ((canon sourcePath).isSome ∧
        canon sourcePath = canon (proposedTargetFor libraryRoot template title
          publishedYear authors isbn13 extension)) ∨
      ((rustParent (proposedTargetFor libraryRoot template title publishedYear
          authors isbn13 extension)).isSome ∧
        (rustParent sourcePath).isSome ∧
        rustParent (proposedTargetFor libraryRoot template title publishedYear
          authors isbn13 extension) = rustParent sourcePath ∧
        (rustPathStem (proposedTargetFor libraryRoot template title publishedYear
          authors isbn13 extension)).isSome ∧
        (rustPathStem sourcePath
          = rustPathStem (proposedTargetFor libraryRoot template title publishedYear
              authors isbn13 extension) ∨
         (rustPathStem sourcePath).bind stripCollisionSuffix
          = rustPathStem (proposedTargetFor libraryRoot template title publishedYear
              authors isbn13 extension))) := by
    rcases heq with h | ⟨c, h1, h2⟩ | ⟨⟨par, hp1, hp2⟩, ⟨stem, hs1, hs2⟩⟩
    · exact Or.inl h
    · refine Or.inr (Or.inl ⟨?_, h1.trans h2.symm⟩)
      rw [h1]
      rfl
    · refine Or.inr (Or.inr ⟨?_, ?_, hp1.trans hp2.symm, ?_, ?_⟩)
      · rw [hp1]; rfl
      · rw [hp2]; rfl
      · rw [hs1]; rfl
      · rcases hs2 with h | h
        · exact Or.inl (h.trans hs1.symm)
        · exact Or.inr (h.trans hs1.symm)
  rw [if_pos (Or.inl hsame)]

/-- C7 witness: a file already at its rendered target is planned `skip`. -/
theorem C7_witness :
    (("move" : String) = "move" ∨ ("move" : String) = "copy") ∧
    ("/lib/Book.epub"
      = proposedTargetFor "/lib" "{Title}.{ext}" (some "Book") none none none ".epub") ∧
    (planEntryFor (fun _ => none) [] "move" "/lib" "{Title}.{ext}" "f1"
      "/lib/Book.epub" ".epub" (some "Book") none none none).action = "skip" :=
  have h1 : ("/lib/Book.epub" : String)
      = proposedTargetFor "/lib" "{Title}.{ext}" (some "Book") none none none ".epub" := by
    decide
  ⟨Or.inl rfl, h1,
    C7_theorem (fun _ => none) [] "move" "/lib" "{Title}.{ext}" "f1"
      "/lib/Book.epub" ".epub" (some "Book") none none none
      (Or.inl rfl) (Or.inl h1)⟩

/-! ## Scan session bracketing -/

/-- No branch of the walk loop body touches the `scan_sessions` table. -/
theorem scanStep_scanSessions (diskPaths : List String) (sessionId : String)
    (now : Int) (st : ScanState) (f : DiskFile) :
    (scanStep diskPaths sessionId now st f).1.db.scanSessions = st.db.scanSessions := by
  unfold scanStep scanUnchanged scanSlow
  repeat' first
    | rfl
    | split
    | dsimp only

/-- The walk loop never touches the `scan_sessions` table. -/
theorem walkFold_scanSessions (diskPaths : List String) (sessionId : String)
    (now : Int) (walk : List DiskFile) :
    ∀ st : ScanState,
      (walkFold diskPaths sessionId now st walk).1.db.scanSessions
        = st.db.scanSessions := by
  induction walk with
  | nil => intro st; rfl
  | cons f rest ih =>
    intro st
    rw [walkFold]
    rcases h : scanStep diskPaths sessionId now st f with ⟨st', err⟩
    have hs := scanStep_scanSessions diskPaths sessionId now st f
    rw [h] at hs
    cases err with
    | none => rw [ih st']; exact hs
    | some e => exact hs

/-- The missing pass never touches the `scan_sessions` table. -/
theorem scanMissing_scanSessions (root sessionId : String) (now : Int)
    (st : ScanState) :
    (scanMissing root sessionId now st).db.scanSessions = st.db.scanSessions := by
  unfold scanMissing
  generalize st.db.files.filter _ = rows
  induction rows generalizing st with
  | nil => rfl
  | cons r rest ih =>
    rw [List.foldl_cons]
    rw [ih (scanMissingStep sessionId now st r)]
    unfold scanMissingStep
    split
    · rfl
    · rfl

/-- C2 counterexample: a hash failure mid-walk terminates the scan with an
error while the ScanSession row still says `running` — it is never set to
`failed`. -/
theorem C2_counterexample :
    (scanFolderSync ["/r/a.epub"] c2Walk "/r" DB.empty 100 "s1" 0).err
      = some "failed to hash file" ∧
    sessionStatus (scanFolderSync ["/r/a.epub"] c2Walk "/r" DB.empty 100 "s1" 0).db "s1"
      = some "running" := by
  decide

/-- C2 (amended): a ScanSession row with status `running` is created before
per-file work; a completed walk updates it to `success`; a hard failure
mid-walk returns the error with the session left `running` — `failed` is
never written. -/
theorem C2_theorem (diskPaths : List String) (walk : List DiskFile)
    (root : String) (db : DB) (now : Int) (sessionId : String) (ctr : Nat)
    (hfresh : ∀ s ∈ db.scanSessions, s.id ≠ sessionId) :
    ((scanFolderSync diskPaths walk root db now sessionId ctr).err = none →
      sessionStatus (scanFolderSync diskPaths walk root db now sessionId ctr).db
        sessionId = some "success") ∧
    (∀ e, (scanFolderSync diskPaths walk root db now sessionId ctr).err = some e →
      sessionStatus (scanFolderSync diskPaths walk root db now sessionId ctr).db
        sessionId = some "running") := by
  have hnone : List.find? (fun s => decide (s.id = sessionId)) db.scanSessions
      = none := by
    rw [List.find?_eq_none]
    intro s hs
    simp only [decide_eq_true_eq]
    exact hfresh s hs
  unfold scanFolderSync
  dsimp only
  rcases hw : walkFold diskPaths sessionId now
    { db := { db with
        scanSessions := db.scanSessions ++ [startedSession sessionId root now] },
      stats := ⟨0, 0, 0, 0, 0⟩, seen := [], hashed := 0, ctr := ctr }
    walk with ⟨st, err⟩
  have hs := walkFold_scanSessions diskPaths sessionId now walk
    { db := { db with
        scanSessions := db.scanSessions ++ [startedSession sessionId root now] },
      stats := ⟨0, 0, 0, 0, 0⟩, seen := [], hashed := 0, ctr := ctr }
  rw [hw] at hs
  dsimp only at hs
  cases err with
  | some e =>
    dsimp only
    constructor
    · intro hcon
      exact absurd hcon (by simp)
    · intro e' _
      unfold sessionStatus
      rw [hs]
      rw [List.find?_append, hnone]
      simp [startedSession]
  | none =>
    dsimp only
    constructor
    · intro _
      unfold sessionStatus
      rw [scanMissing_scanSessions, hs]
      rw [List.map_append, List.find?_append]
      have h1 : List.find? (fun s => decide (s.id = sessionId))
          (db.scanSessions.map fun s =>
            if s.id = sessionId then { s with status := "success", endedAt := some now }
            else s) = none := by
        rw [List.find?_eq_none]
        intro s hs'
        obtain ⟨s0, hs0, rfl⟩ := List.mem_map.mp hs'
        rw [if_neg (hfresh s0 hs0)]
        simp only [decide_eq_true_eq]
        exact hfresh s0 hs0
      rw [h1]
      simp [startedSession]
    · intro e hcon
      exact absurd hcon (by simp)

/-- C2 witness: the amended theorem instantiated at the failing scan. -/
theorem C2_witness :
    (∀ s ∈ DB.empty.scanSessions, s.id ≠ "s1") ∧
    (((scanFolderSync ["/r/a.epub"] c2Walk "/r" DB.empty 100 "s1" 0).err = none →
      sessionStatus (scanFolderSync ["/r/a.epub"] c2Walk "/r" DB.empty 100 "s1" 0).db
        "s1" = some "success") ∧
    (∀ e, (scanFolderSync ["/r/a.epub"] c2Walk "/r" DB.empty 100 "s1" 0).err = some e →
      sessionStatus (scanFolderSync ["/r/a.epub"] c2Walk "/r" DB.empty 100 "s1" 0).db
        "s1" = some "running")) :=
  have h : ∀ s ∈ DB.empty.scanSessions, s.id ≠ "s1" := by
    intro s hs; cases hs
  ⟨h, C2_theorem ["/r/a.epub"] c2Walk "/r" DB.empty 100 "s1" 0 h⟩

/-! ## Moved and duplicate classification -/

/-- C5: a file missing the unchanged fast path whose hash matches a
non-inactive record whose recorded path no longer exists on disk is
classified `moved`: the existing record is updated in place to the new
path, filename, extension, size and modified time (its identifier and owning
item fields are carried over unchanged), every other record is untouched, no
record and no item is created, and a `moved` scan entry is logged. -/
theorem C5_theorem (diskPaths : List String) (sessionId : String) (now : Int)
    (st : ScanState) (f : DiskFile) (filename pathStr ext : String)
    (sizeBytes : Int) (modifiedAt : Option Int)
    (existingByPath : Option FileRecord) (sha : String) (hit : FileRecord)
    (hhash : f.hash = some sha)
    (hfind : findByHash st.db sha = some hit)
    (hgone : hit.path ∉ diskPaths) :
    let r := scanSlow diskPaths sessionId now st f filename pathStr ext
      sizeBytes modifiedAt existingByPath
    r.2 = none ∧
    r.1.db.files.length = st.db.files.length ∧
    r.1.db.items = st.db.items ∧
    (∀ x ∈ st.db.files, x.id = hit.id →
      { x with
        path := pathStr
        filename := filename
        extension := ext
        sizeBytes := some sizeBytes
        modifiedAt := modifiedAt
        updatedAt := now
        status := "active" } ∈ r.1.db.files) ∧
    (∀ x ∈ st.db.files, x.id ≠ hit.id → x ∈ r.1.db.files) ∧
    r.1.stats.moved = st.stats.moved + 1 ∧
    r.1.stats.added = st.stats.added ∧
    r.1.stats.updated = st.stats.updated ∧
    r.1.stats.unchanged = st.stats.unchanged ∧
    r.1.stats.missing = st.stats.missing ∧
    r.1.db.scanEntries = st.db.scanEntries ++ [{
      id := freshId st.ctr, sessionId := sessionId, path := pathStr,
      modifiedAt := modifiedAt, sizeBytes := some sizeBytes, sha256 := some sha,
      action := "moved", fileId := hit.id }] := by
  unfold scanSlow
  rw [hhash]
  dsimp only
  rw [hfind]
  dsimp only
  rw [if_neg hgone]
  refine ⟨rfl, ?_, rfl, ?_, ?_, rfl, rfl, rfl, rfl, rfl, rfl⟩
  · exact List.length_map _ _
  · intro x hx hid
    have hmem := List.mem_map_of_mem
      (fun x : FileRecord =>
        if x.id = hit.id then
          { x with
            path := pathStr
            filename := filename
            extension := ext
            sizeBytes := some sizeBytes
            modifiedAt := modifiedAt
            updatedAt := now
            status := "active" }
        else x) hx
    dsimp only at hmem ⊢
    rw [if_pos hid] at hmem
    exact hmem
  · intro x hx hid
    have hmem := List.mem_map_of_mem
      (fun x : FileRecord =>
        if x.id = hit.id then
          { x with
            path := pathStr
            filename := filename
            extension := ext
            sizeBytes := some sizeBytes
            modifiedAt := modifiedAt
            updatedAt := now
            status := "active" }
        else x) hx
    dsimp only at hmem ⊢
    rw [if_neg hid] at hmem
    exact hmem

/-- C5 witness: the theorem applied to a record whose path disappeared. -/
theorem C5_witness :
    ((⟨"/r/a.epub", 1, some 1, some "h", true⟩ : DiskFile).hash = some "h" ∧
     findByHash c6Db "h" = some (c6Orig) ∧
     (c6Orig).path ∉ (["/r/a.epub"] : List String)) ∧
    ((scanSlow ["/r/a.epub"] "s5" 100
        { db := c6Db, stats := ⟨0,0,0,0,0⟩, seen := ["/r/a.epub"], hashed := 1, ctr := 0 }
        ⟨"/r/a.epub", 1, some 1, some "h", true⟩ "a.epub" "/r/a.epub" ".epub" 1 (some 1)
        none).2 = none ∧
     (scanSlow ["/r/a.epub"] "s5" 100
        { db := c6Db, stats := ⟨0,0,0,0,0⟩, seen := ["/r/a.epub"], hashed := 1, ctr := 0 }
        ⟨"/r/a.epub", 1, some 1, some "h", true⟩ "a.epub" "/r/a.epub" ".epub" 1 (some 1)
        none).1.stats.moved = 1) :=
  have h1 : (⟨"/r/a.epub", 1, some 1, some "h", true⟩ : DiskFile).hash = some "h" := by decide
  have h2 : findByHash c6Db "h" = some (c6Orig) := by decide
  have h3 : (c6Orig).path ∉ (["/r/a.epub"] : List String) := by decide
  have h := C5_theorem ["/r/a.epub"] "s5" 100
    { db := c6Db, stats := ⟨0,0,0,0,0⟩, seen := ["/r/a.epub"], hashed := 1, ctr := 0 }
    ⟨"/r/a.epub", 1, some 1, some "h", true⟩ "a.epub" "/r/a.epub" ".epub" 1 (some 1)
    none "h" (c6Orig) h1 h2 h3
  ⟨⟨h1, h2, h3⟩, h.1, by
    have hm := h.2.2.2.2.2.1
    simpa using hm⟩

/-- C6 counterexample: the `duplicate` issue raised by the scan references the
newly created FileRecord (`uuid-0`), not the original record (`o1`), contrary
to the claim that the issue is raised against the original record. -/
theorem C6_counterexample :
    ((scanFolderSync c6Disk c6Walk "/r" c6Db 100 "s6" 0).db.issues.map
      fun i => (i.type, i.fileId)) = [("duplicate", "uuid-0")] ∧
    ((scanFolderSync c6Disk c6Walk "/r" c6Db 100 "s6" 0).db.files.map (·.id))
      = ["o1", "uuid-0"] ∧
    ("uuid-0" : String) ≠ "o1" := by
  decide

/-- C6 (amended): a file missing the unchanged fast path whose hash matches a
non-inactive record whose recorded path still exists on disk is classified a
duplicate: a new FileRecord is appended at the new path carrying the original
record's owning item and the shared content hash, a `duplicate` issue is
raised referencing the new record (it carries the original's item id but the
new record's file id), every pre-existing record — the original included — is
left unchanged, no item is created, and the scan counts the file as added. -/
theorem C6_theorem (diskPaths : List String) (sessionId : String) (now : Int)
    (st : ScanState) (f : DiskFile) (filename pathStr ext : String)
    (sizeBytes : Int) (modifiedAt : Option Int)
    (existingByPath : Option FileRecord) (sha : String) (hit orig : FileRecord)
    (hhash : f.hash = some sha)
    (hfind : findByHash st.db sha = some hit)
    (hexists : hit.path ∈ diskPaths)
    (horig : st.db.files.find? (fun x => x.id = hit.id) = some orig) :
    let r := scanSlow diskPaths sessionId now st f filename pathStr ext
      sizeBytes modifiedAt existingByPath
    r.2 = none ∧
    r.1.db.files = st.db.files ++ [{
      id := freshId st.ctr, itemId := orig.itemId, path := pathStr,
      filename := filename, extension := ext, sizeBytes := some sizeBytes,
      sha256 := some sha, hashAlgo := "sha256", modifiedAt := modifiedAt,
      status := "active", createdAt := now, updatedAt := now }] ∧
    r.1.db.issues = st.db.issues ++ [{
      id := freshId (st.ctr + 1), itemId := orig.itemId, fileId := freshId st.ctr,
      type := "duplicate", message := "Duplicate content detected by hash.",
      severity := "warn", createdAt := now, resolvedAt := none }] ∧
    r.1.db.items = st.db.items ∧
    r.1.stats.added = st.stats.added + 1 ∧
    r.1.stats.moved = st.stats.moved ∧
    r.1.stats.updated = st.stats.updated ∧
    r.1.stats.unchanged = st.stats.unchanged ∧
    r.1.stats.missing = st.stats.missing := by
  unfold scanSlow
  rw [hhash]
  dsimp only
  rw [hfind]
  dsimp only
  rw [if_pos hexists]
  rw [horig]
  exact ⟨rfl, rfl, rfl, rfl, rfl, rfl, rfl, rfl, rfl⟩

/-- C6 witness: the amended theorem applied to the concrete duplicate scan. -/
theorem C6_witness :
    ((⟨"/r/p.epub", 1, some 1, some "h", true⟩ : DiskFile).hash = some "h" ∧
     findByHash c6Db "h" = some (c6Orig) ∧
     (c6Orig).path ∈ c6Disk ∧
     c6Db.files.find? (fun x => x.id = (c6Orig).id)
      = some (c6Orig)) ∧
    ((scanSlow c6Disk "s6" 100
        { db := c6Db, stats := ⟨0,0,0,0,0⟩, seen := ["/r/p.epub"], hashed := 1, ctr := 0 }
        ⟨"/r/p.epub", 1, some 1, some "h", true⟩ "p.epub" "/r/p.epub" ".epub" 1 (some 1)
        none).2 = none ∧
     (scanSlow c6Disk "s6" 100
        { db := c6Db, stats := ⟨0,0,0,0,0⟩, seen := ["/r/p.epub"], hashed := 1, ctr := 0 }
        ⟨"/r/p.epub", 1, some 1, some "h", true⟩ "p.epub" "/r/p.epub" ".epub" 1 (some 1)
        none).1.stats.added = 1) :=
  have h1 : (⟨"/r/p.epub", 1, some 1, some "h", true⟩ : DiskFile).hash = some "h" := by decide
  have h2 : findByHash c6Db "h" = some (c6Orig) := by decide
  have h3 : (c6Orig).path ∈ c6Disk := by decide
  have h4 : c6Db.files.find? (fun x => x.id = (c6Orig).id)
      = some (c6Orig) := by decide
  have h := C6_theorem c6Disk "s6" 100
    { db := c6Db, stats := ⟨0,0,0,0,0⟩, seen := ["/r/p.epub"], hashed := 1, ctr := 0 }
    ⟨"/r/p.epub", 1, some 1, some "h", true⟩ "p.epub" "/r/p.epub" ".epub" 1 (some 1)
    none "h" (c6Orig) (c6Orig) h1 h2 h3 h4
  ⟨⟨h1, h2, h3, h4⟩, h.1, by
    have hm := h.2.2.2.2.1
    simpa using hm⟩

/-! ## Idempotent rescanning -/

theorem bestByHash_mem {l : List FileRecord} {r : FileRecord}
    (h : bestByHash l = some r) : r ∈ l := by
  unfold bestByHash at h
  suffices haux : ∀ (l : List FileRecord) (acc : Option FileRecord),
      l.foldl (fun best r =>
        match best with
        | none => some r
        | some b =>
          if statusRank r.status < statusRank b.status ∨
             (statusRank r.status = statusRank b.status ∧ b.updatedAt < r.updatedAt)
          then some r else some b) acc = some r → acc = some r ∨ r ∈ l by
    rcases haux l none h with hacc | hmem
    · cases hacc
    · exact hmem
  intro l
  induction l with
  | nil => intro acc h; exact Or.inl h
  | cons x xs ih =>
    intro acc h
    rw [List.foldl_cons] at h
    rcases ih _ h with hacc | hmem
    · cases acc with
      | none =>
        simp only [] at hacc
        exact Or.inr (List.mem_cons.mpr (Or.inl (Option.some.inj hacc).symm))
      | some b =>
        simp only [] at hacc
        split at hacc
        · exact Or.inr (List.mem_cons.mpr (Or.inl (Option.some.inj hacc).symm))
        · exact Or.inl hacc
    · exact Or.inr (List.mem_cons.mpr (Or.inr hmem))

theorem findByHash_mem {db : DB} {h : String} {r : FileRecord}
    (hf : findByHash db h = some r) : r ∈ db.files := by
  unfold findByHash at hf
  have := bestByHash_mem hf
  exact (List.mem_filter.mp this).1

/-- When every record's path was already seen and the probed path was not,
the by-path lookup finds nothing. -/
theorem find?_path_none (st : ScanState) (p : String)
    (hseen : ∀ x ∈ st.db.files, x.path ∈ st.seen) (hp : p ∉ st.seen) :
    st.db.files.find? (fun r => r.path = p ∧ r.status ≠ "inactive") = none := by
  rw [List.find?_eq_none]
  intro x hx
  simp only [decide_eq_true_eq, not_and]
  intro hpath
  exact absurd (hpath ▸ hseen x hx) hp

/-- On a fresh path (`existingByPath = none`) whose hash either matches no
record or matches one still present on disk, the slow path appends exactly
one new active record carrying the on-disk metadata and touches no existing
record. -/
theorem scanSlow_fresh (diskPaths : List String) (sessionId : String)
    (now : Int) (st : ScanState) (f : DiskFile)
    (filename pathStr ext : String) (sizeBytes : Int) (modifiedAt : Option Int)
    (sha : String) (hhash : f.hash = some sha)
    (hhit : ∀ hit, findByHash st.db sha = some hit → hit.path ∈ diskPaths) :
    ∃ newRec : FileRecord,
      (scanSlow diskPaths sessionId now st f filename pathStr ext sizeBytes
        modifiedAt none).2 = none ∧
      (scanSlow diskPaths sessionId now st f filename pathStr ext sizeBytes
        modifiedAt none).1.db.files = st.db.files ++ [newRec] ∧
      (scanSlow diskPaths sessionId now st f filename pathStr ext sizeBytes
        modifiedAt none).1.seen = st.seen ∧
      newRec.path = pathStr ∧ newRec.status = "active" ∧
      newRec.sizeBytes = some sizeBytes ∧ newRec.modifiedAt = modifiedAt ∧
      newRec.hashAlgo = "sha256" := by
  unfold scanSlow
  rw [hhash]
  dsimp only
  rcases hfind : findByHash st.db sha with _ | hit
  · dsimp only
    refine ⟨_, rfl, rfl, rfl, rfl, rfl, rfl, rfl, rfl⟩
  · dsimp only
    rw [if_pos (hhit hit hfind)]
    have hmem := findByHash_mem hfind
    have hsome : (st.db.files.find? fun x => x.id = hit.id).isSome := by
      rw [List.find?_isSome]
      exact ⟨hit, hmem, by simp⟩
    rcases horig : st.db.files.find? fun x => x.id = hit.id with _ | orig
    · rw [horig] at hsome
      cases hsome
    · rw [horig]
      dsimp only
      refine ⟨_, rfl, rfl, rfl, rfl, rfl, rfl, rfl, rfl⟩

/-- One step of a scan over an initially empty store: no failure, the
invariant is preserved, the processed file's path now has a matching
record, established fast-path facts survive, and `seen` grows by exactly the
processed path. -/
theorem scan1_step (diskPaths : List String) (sessionId : String) (now : Int)
    (st : ScanState) (f : DiskFile)
    (hinv : ScanDbInv diskPaths st)
    (hstat : f.statOk = true) (hhash : f.hash.isSome)
    (hdisk : f.path ∈ diskPaths) (hfresh : f.path ∉ st.seen) :
    (scanStep diskPaths sessionId now st f).2 = none ∧
    ScanDbInv diskPaths (scanStep diskPaths sessionId now st f).1 ∧
    (extOk f → goodAt (scanStep diskPaths sessionId now st f).1 f) ∧
    (∀ g, goodAt st g → goodAt (scanStep diskPaths sessionId now st f).1 g) ∧
    (∀ p ∈ st.seen, p ∈ (scanStep diskPaths sessionId now st f).1.seen) ∧
    (∀ p ∈ (scanStep diskPaths sessionId now st f).1.seen,
      p ∈ st.seen ∨ (extOk f ∧ f.path = p)) := by
  have hseen : ∀ x ∈ st.db.files, x.path ∈ st.seen := fun x hx => (hinv x hx).2.1
  by_cases hext : extOk f
  · have hcond : ¬ (scanExt f ≠ ".epub" ∧ scanExt f ≠ ".pdf") := by
      rcases hext with h | h
      · intro hc; exact hc.1 h
      · intro hc; exact hc.2 h
    obtain ⟨sha, hsha⟩ := Option.isSome_iff_exists.mp hhash
    have hfn := find?_path_none st f.path hseen hfresh
    have hstep : scanStep diskPaths sessionId now st f
        = scanSlow diskPaths sessionId now { st with seen := f.path :: st.seen }
            f ((rustFileName f.path).getD "file") f.path (scanExt f)
            f.size f.mtime none := by
      unfold scanStep
      dsimp only
      rw [if_neg hcond, if_neg (by rw [hstat]; exact fun h => h rfl)]
      rw [hfn]
    obtain ⟨newRec, herr, hfiles, hseen', hpath, hstatus, hsize, hmtime, halgo⟩ :=
      scanSlow_fresh diskPaths sessionId now { st with seen := f.path :: st.seen }
        f ((rustFileName f.path).getD "file") f.path (scanExt f) f.size f.mtime
        sha hsha
        (fun hit hh => ((hinv hit (findByHash_mem hh)).2.2.1))
    rw [hstep]
    dsimp only at hfiles hseen' ⊢
    refine ⟨herr, ?_, ?_, ?_, ?_, ?_⟩
    · intro x hx
      rw [hfiles] at hx
      rcases List.mem_append.mp hx with hold | hnew
      · obtain ⟨h1, h2, h3, h4⟩ := hinv x hold
        exact ⟨h1, by rw [hseen']; exact List.mem_cons_of_mem _ h2, h3, h4⟩
      · have : x = newRec := List.mem_singleton.mp hnew
        subst this
        exact ⟨hstatus, by rw [hseen', hpath]; exact List.mem_cons_self _ _,
          by rw [hpath]; exact hdisk, halgo⟩
    · intro _
      refine ⟨newRec, ?_, hsize, hmtime⟩
      rw [hfiles, List.find?_append, hfn]
      simp only [Option.none_or]
      have hp : (fun r : FileRecord =>
          decide (r.path = f.path ∧ r.status ≠ "inactive")) newRec = true := by
        simp only [decide_eq_true_eq]
        exact ⟨hpath, by rw [hstatus]; decide⟩
      simp [List.find?, hp]
    · intro g hg
      obtain ⟨r, hr, h1, h2⟩ := hg
      refine ⟨r, ?_, h1, h2⟩
      rw [hfiles, List.find?_append, hr]
      rfl
    · intro p hp
      rw [hseen']
      exact List.mem_cons_of_mem _ hp
    · intro p hp
      rw [hseen'] at hp
      rcases List.mem_cons.mp hp with rfl | hmem
      · exact Or.inr ⟨hext, rfl⟩
      · exact Or.inl hmem
  · have hcond : scanExt f ≠ ".epub" ∧ scanExt f ≠ ".pdf" := by
      constructor
      · intro h; exact hext (Or.inl h)
      · intro h; exact hext (Or.inr h)
    have hstep : scanStep diskPaths sessionId now st f = (st, none) := by
      unfold scanStep
      dsimp only
      rw [if_pos hcond]
    rw [hstep]
    exact ⟨rfl, hinv, fun h => absurd h hext, fun g hg => hg,
      fun p hp => hp, fun p hp => Or.inl hp⟩

/-- The full walk of a scan over an initially empty store. -/
theorem scan1_walk (diskPaths : List String) (sessionId : String) (now : Int) :
    ∀ (rest : List DiskFile) (st : ScanState),
      ScanDbInv diskPaths st →
      (∀ f ∈ rest, f.statOk = true ∧ f.hash.isSome ∧ f.path ∈ diskPaths ∧
        f.path ∉ st.seen) →
      (rest.map (·.path)).Nodup →
      (walkFold diskPaths sessionId now st rest).2 = none ∧
      ScanDbInv diskPaths (walkFold diskPaths sessionId now st rest).1 ∧
      (∀ f ∈ rest, extOk f → goodAt (walkFold diskPaths sessionId now st rest).1 f) ∧
      (∀ g, goodAt st g → goodAt (walkFold diskPaths sessionId now st rest).1 g) ∧
      (∀ p ∈ st.seen, p ∈ (walkFold diskPaths sessionId now st rest).1.seen) ∧
      (∀ p ∈ (walkFold diskPaths sessionId now st rest).1.seen,
        p ∈ st.seen ∨ ∃ f ∈ rest, extOk f ∧ f.path = p) := by
  intro rest
  induction rest with
  | nil =>
    intro st hinv _ _
    exact ⟨rfl, hinv, fun f hf => absurd hf (List.not_mem_nil f),
      fun g hg => hg, fun p hp => hp, fun p hp => Or.inl hp⟩
  | cons f rest ih =>
    intro st hinv hfs hnodup
    obtain ⟨hstat, hhash, hdisk, hfresh⟩ := hfs f (List.mem_cons_self f rest)
    obtain ⟨herr, hinv', hgood', hpres', hgrow', hfrom'⟩ :=
      scan1_step diskPaths sessionId now st f hinv hstat hhash hdisk hfresh
    rw [walkFold]
    rcases hstep : scanStep diskPaths sessionId now st f with ⟨st', err⟩
    rw [hstep] at herr hinv' hgood' hpres' hgrow' hfrom'
    dsimp only at herr hinv' hgood' hpres' hgrow' hfrom' ⊢
    subst herr
    have hnodup' : (rest.map (·.path)).Nodup := (List.nodup_cons.mp hnodup).2
    have hnotin : f.path ∉ rest.map (·.path) := (List.nodup_cons.mp hnodup).1
    have hfs' : ∀ g ∈ rest, g.statOk = true ∧ g.hash.isSome ∧ g.path ∈ diskPaths ∧
        g.path ∉ st'.seen := by
      intro g hg
      obtain ⟨h1, h2, h3, h4⟩ := hfs g (List.mem_cons_of_mem f hg)
      refine ⟨h1, h2, h3, fun hcon => ?_⟩
      rcases hfrom' g.path hcon with hmem | ⟨_, hpf⟩
      · exact h4 hmem
      · exact hnotin (hpf ▸ List.mem_map_of_mem (·.path) hg)
    obtain ⟨ierr, iinv, igood, ipres, igrow, ifrom⟩ := ih st' hinv' hfs' hnodup'
    refine ⟨ierr, iinv, ?_, ?_, ?_, ?_⟩
    · intro g hg hgext
      rcases List.mem_cons.mp hg with rfl | hmem
      · exact ipres g (hgood' hgext)
      · exact igood g hmem hgext
    · intro g hg
      exact ipres g (hpres' g hg)
    · intro p hp
      exact igrow p (hgrow' p hp)
    · intro p hp
      rcases ifrom p hp with hmem | ⟨g, hg, hge, hgp⟩
      · rcases hfrom' p hmem with hmem' | ⟨hfe, hfp⟩
        · exact Or.inl hmem'
        · exact Or.inr ⟨f, List.mem_cons_self f rest, hfe, hfp⟩
      · exact Or.inr ⟨g, List.mem_cons_of_mem f hg, hge, hgp⟩

/-- The fast-path facts only read the record list. -/
theorem goodAt_of_files_eq {st st' : ScanState} {f : DiskFile}
    (h : st.db.files = st'.db.files) (hg : goodAt st f) : goodAt st' f := by
  obtain ⟨r, hr, h1, h2⟩ := hg
  exact ⟨r, h ▸ hr, h1, h2⟩

/-- One step of a rescan in which the file's path already carries a matching
active record: the fast path fires, nothing is hashed, no counter except
`unchanged` moves, and the record list is untouched. -/
theorem scan2_step (diskPaths : List String) (sessionId : String) (now : Int)
    (st : ScanState) (f : DiskFile)
    (hstat : f.statOk = true)
    (hgood : extOk f → goodAt st f)
    (hactive : ∀ x ∈ st.db.files, x.status = "active") :
    (scanStep diskPaths sessionId now st f).2 = none ∧
    (scanStep diskPaths sessionId now st f).1.db.files = st.db.files ∧
    (scanStep diskPaths sessionId now st f).1.stats.added = st.stats.added ∧
    (scanStep diskPaths sessionId now st f).1.stats.updated = st.stats.updated ∧
    (scanStep diskPaths sessionId now st f).1.stats.moved = st.stats.moved ∧
    (scanStep diskPaths sessionId now st f).1.stats.missing = st.stats.missing ∧
    (scanStep diskPaths sessionId now st f).1.hashed = st.hashed ∧
    (∀ p ∈ st.seen, p ∈ (scanStep diskPaths sessionId now st f).1.seen) ∧
    (extOk f → f.path ∈ (scanStep diskPaths sessionId now st f).1.seen) := by
  by_cases hext : extOk f
  · have hcond : ¬ (scanExt f ≠ ".epub" ∧ scanExt f ≠ ".pdf") := by
      rcases hext with h | h
      · intro hc; exact hc.1 h
      · intro hc; exact hc.2 h
    obtain ⟨r, hr, hsize, hmtime⟩ := hgood hext
    have hmiss : ¬ (r.status = "missing") := by
      rw [hactive r (List.mem_of_find?_eq_some hr)]
      decide
    have hstep : scanStep diskPaths sessionId now st f
        = (scanUnchanged sessionId now { st with seen := f.path :: st.seen } r
            f.path f.mtime f.size, none) := by
      unfold scanStep
      dsimp only
      rw [if_neg hcond, if_neg (by rw [hstat]; exact fun h => h rfl)]
      rw [hr]
      dsimp only
      rw [if_pos ⟨hmtime, hsize⟩]
    rw [hstep]
    unfold scanUnchanged
    rw [if_neg hmiss]
    exact ⟨rfl, rfl, rfl, rfl, rfl, rfl, rfl,
      fun p hp => List.mem_cons_of_mem _ hp,
      fun _ => List.mem_cons_self _ _⟩
  · have hcond : scanExt f ≠ ".epub" ∧ scanExt f ≠ ".pdf" := by
      constructor
      · intro h; exact hext (Or.inl h)
      · intro h; exact hext (Or.inr h)
    have hstep : scanStep diskPaths sessionId now st f = (st, none) := by
      unfold scanStep
      dsimp only
      rw [if_pos hcond]
    rw [hstep]
    exact ⟨rfl, rfl, rfl, rfl, rfl, rfl, rfl, fun p hp => hp,
      fun h => absurd h hext⟩

/-- The full walk of a rescan of an unchanged directory. -/
theorem scan2_walk (diskPaths : List String) (sessionId : String) (now : Int) :
    ∀ (rest : List DiskFile) (st : ScanState),
      (∀ f ∈ rest, f.statOk = true) →
      (∀ f ∈ rest, extOk f → goodAt st f) →
      (∀ x ∈ st.db.files, x.status = "active") →
      (walkFold diskPaths sessionId now st rest).2 = none ∧
      (walkFold diskPaths sessionId now st rest).1.db.files = st.db.files ∧
      (walkFold diskPaths sessionId now st rest).1.stats.added = st.stats.added ∧
      (walkFold diskPaths sessionId now st rest).1.stats.updated = st.stats.updated ∧
      (walkFold diskPaths sessionId now st rest).1.stats.moved = st.stats.moved ∧
      (walkFold diskPaths sessionId now st rest).1.stats.missing = st.stats.missing ∧
      (walkFold diskPaths sessionId now st rest).1.hashed = st.hashed ∧
      (∀ p ∈ st.seen, p ∈ (walkFold diskPaths sessionId now st rest).1.seen) ∧
      (∀ f ∈ rest, extOk f → f.path ∈ (walkFold diskPaths sessionId now st rest).1.seen) := by
  intro rest
  induction rest with
  | nil =>
    intro st _ _ _
    exact ⟨rfl, rfl, rfl, rfl, rfl, rfl, rfl, fun p hp => hp,
      fun f hf => absurd hf (List.not_mem_nil f)⟩
  | cons f rest ih =>
    intro st hstat hgood hactive
    obtain ⟨herr, hfiles, ha, hu, hm, hmi, hh, hgrow, hself⟩ :=
      scan2_step diskPaths sessionId now st f
        (hstat f (List.mem_cons_self f rest))
        (hgood f (List.mem_cons_self f rest)) hactive
    rw [walkFold]
    rcases hstep : scanStep diskPaths sessionId now st f with ⟨st', err⟩
    rw [hstep] at herr hfiles ha hu hm hmi hh hgrow hself
    dsimp only at herr hfiles ha hu hm hmi hh hgrow hself ⊢
    subst herr
    obtain ⟨ierr, ifiles, ia, iu, im, imi, ihh, igrow, iself⟩ :=
      ih st' (fun g hg => hstat g (List.mem_cons_of_mem f hg))
        (fun g hg hge =>
          goodAt_of_files_eq hfiles.symm (hgood g (List.mem_cons_of_mem f hg) hge))
        (fun x hx => hactive x (hfiles ▸ hx))
    refine ⟨ierr, by rw [ifiles, hfiles], by rw [ia, ha], by rw [iu, hu],
      by rw [im, hm], by rw [imi, hmi], by rw [ihh, hh],
      fun p hp => igrow p (hgrow p hp), ?_⟩
    intro g hg hge
    rcases List.mem_cons.mp hg with rfl | hmem
    · exact igrow g.path (hself hge)
    · exact iself g hmem hge

/-- When every active record's path was seen this pass, the missing pass is
a no-op. -/
theorem scanMissing_noop (root sessionId : String) (now : Int) (st : ScanState)
    (h : ∀ x ∈ st.db.files, x.status = "active" → x.path ∈ st.seen) :
    scanMissing root sessionId now st = st := by
  unfold scanMissing
  have haux : ∀ rows : List FileRecord, (∀ r ∈ rows, r.path ∈ st.seen) →
      rows.foldl (scanMissingStep sessionId now) st = st := by
    intro rows
    induction rows with
    | nil => intro _; rfl
    | cons r rest ih =>
      intro hr
      rw [List.foldl_cons]
      have hstep : scanMissingStep sessionId now st r = st := by
        unfold scanMissingStep
        rw [if_pos (hr r (List.mem_cons_self r rest))]
      rw [hstep]
      exact ih fun r' hr' => hr r' (List.mem_cons_of_mem r hr')
  apply haux
  intro r hr
  have hmem := List.mem_filter.mp hr
  have hp := hmem.2
  simp only [decide_eq_true_eq] at hp
  exact h r hmem.1 hp.1

/-- The unchanged fast path in isolation: a matching by-path record short
circuits the loop body with no hashing; a `missing` record is reactivated. -/
theorem scanStep_fastPath (diskPaths : List String) (sessionId : String)
    (now : Int) (st : ScanState) (f : DiskFile) (r0 : FileRecord)
    (hext : extOk f) (hstat : f.statOk = true)
    (hfind : st.db.files.find? (fun r => r.path = f.path ∧ r.status ≠ "inactive")
      = some r0)
    (hmt : r0.modifiedAt = f.mtime) (hsz : r0.sizeBytes = some f.size) :
    (scanStep diskPaths sessionId now st f).2 = none ∧
    (scanStep diskPaths sessionId now st f).1.hashed = st.hashed ∧
    (scanStep diskPaths sessionId now st f).1.stats.unchanged
      = st.stats.unchanged + 1 ∧
    (scanStep diskPaths sessionId now st f).1.stats.added = st.stats.added ∧
    (scanStep diskPaths sessionId now st f).1.stats.updated = st.stats.updated ∧
    (scanStep diskPaths sessionId now st f).1.stats.moved = st.stats.moved ∧
    (scanStep diskPaths sessionId now st f).1.stats.missing = st.stats.missing ∧
    (scanStep diskPaths sessionId now st f).1.db.files.length
      = st.db.files.length ∧
    (r0.status = "missing" → ∀ x ∈ st.db.files, x.id = r0.id →
      { x with status := "active", updatedAt := now }
        ∈ (scanStep diskPaths sessionId now st f).1.db.files) ∧
    (r0.status ≠ "missing" →
      (scanStep diskPaths sessionId now st f).1.db.files = st.db.files) ∧
    (scanStep diskPaths sessionId now st f).1.db.scanEntries
      = st.db.scanEntries ++ [{
        id := freshId st.ctr, sessionId := sessionId, path := f.path,
        modifiedAt := f.mtime, sizeBytes := some f.size, sha256 := none,
        action := "unchanged", fileId := r0.id }] := by
  have hcond : ¬ (scanExt f ≠ ".epub" ∧ scanExt f ≠ ".pdf") := by
    rcases hext with h | h
    · intro hc; exact hc.1 h
    · intro hc; exact hc.2 h
  have hstep : scanStep diskPaths sessionId now st f
      = (scanUnchanged sessionId now { st with seen := f.path :: st.seen } r0
          f.path f.mtime f.size, none) := by
    unfold scanStep
    dsimp only
    rw [if_neg hcond, if_neg (by rw [hstat]; exact fun h => h rfl)]
    rw [hfind]
    dsimp only
    rw [if_pos ⟨hmt, hsz⟩]
  rw [hstep]
  unfold scanUnchanged
  by_cases hmiss : r0.status = "missing"
  · rw [if_pos hmiss]
    refine ⟨rfl, rfl, rfl, rfl, rfl, rfl, rfl, ?_, ?_, ?_, rfl⟩
    · exact List.length_map _ _
    · intro _ x hx hid
      have hmem := List.mem_map_of_mem
        (fun x : FileRecord =>
          if x.id = r0.id then { x with status := "active", updatedAt := now }
          else x) hx
      dsimp only at hmem ⊢
      rw [if_pos hid] at hmem
      exact hmem
    · intro hcon
      exact absurd hmiss hcon
  · rw [if_neg hmiss]
    exact ⟨rfl, rfl, rfl, rfl, rfl, rfl, rfl, rfl,
      fun hcon => absurd hcon hmiss, fun _ => rfl, rfl⟩

/-- C4 counterexample: rescanning an unchanged directory is not idempotent
from every prior database state.  A stale active record at `/r/p.epub`
shadows the duplicate record a first scan creates there, so a second scan of
the unchanged directory hashes again and adds another record. -/
theorem C4_counterexample :
    (scanFolderSync c4Disk c4Walk "/r" c4Db 100 "s1" 0).err = none ∧
    (scanFolderSync c4Disk c4Walk "/r"
      (scanFolderSync c4Disk c4Walk "/r" c4Db 100 "s1" 0).db 200 "s2" 50).err
      = none ∧
    (scanFolderSync c4Disk c4Walk "/r"
      (scanFolderSync c4Disk c4Walk "/r" c4Db 100 "s1" 0).db 200 "s2" 50).stats.added
      = 1 ∧
    (scanFolderSync c4Disk c4Walk "/r"
      (scanFolderSync c4Disk c4Walk "/r" c4Db 100 "s1" 0).db 200 "s2" 50).hashed
      = 1 := by
  decide

/-- C4 (amended): (1) a file at a path carrying an active-or-missing record
with exactly matching size and modified time is classified `unchanged`
without hashing, and a `missing` record is reactivated; (2) consequently,
starting from an empty record store, scanning a directory and rescanning it
unchanged yields zero added, updated, moved and missing counts and performs
no hashing on the second pass.  (The second part needs the clean initial
store: the counterexample shows a stale pre-existing record can defeat
idempotence.) -/
theorem C4_theorem :
    (∀ (diskPaths : List String) (sessionId : String) (now : Int)
        (st : ScanState) (f : DiskFile) (r0 : FileRecord),
      extOk f → f.statOk = true →
      st.db.files.find? (fun r => r.path = f.path ∧ r.status ≠ "inactive")
        = some r0 →
      r0.modifiedAt = f.mtime → r0.sizeBytes = some f.size →
      (scanStep diskPaths sessionId now st f).2 = none ∧
      (scanStep diskPaths sessionId now st f).1.hashed = st.hashed ∧
      (scanStep diskPaths sessionId now st f).1.stats.unchanged
        = st.stats.unchanged + 1 ∧
      (scanStep diskPaths sessionId now st f).1.stats.added = st.stats.added ∧
      (scanStep diskPaths sessionId now st f).1.stats.updated = st.stats.updated ∧
      (scanStep diskPaths sessionId now st f).1.stats.moved = st.stats.moved ∧
      (scanStep diskPaths sessionId now st f).1.stats.missing = st.stats.missing ∧
      (r0.status = "missing" → ∀ x ∈ st.db.files, x.id = r0.id →
        { x with status := "active", updatedAt := now }
          ∈ (scanStep diskPaths sessionId now st f).1.db.files)) ∧
    (∀ (diskPaths : List String) (walk : List DiskFile) (root : String)
        (now1 now2 : Int) (sid1 sid2 : String) (ctr1 ctr2 : Nat),
      (walk.map (·.path)).Nodup →
      (∀ f ∈ walk, f.statOk = true ∧ f.hash.isSome ∧ f.path ∈ diskPaths) →
      (scanFolderSync diskPaths walk root DB.empty now1 sid1 ctr1).err = none ∧
      (scanFolderSync diskPaths walk root
        (scanFolderSync diskPaths walk root DB.empty now1 sid1 ctr1).db
        now2 sid2 ctr2).err = none ∧
      (scanFolderSync diskPaths walk root
        (scanFolderSync diskPaths walk root DB.empty now1 sid1 ctr1).db
        now2 sid2 ctr2).stats.added = 0 ∧
      (scanFolderSync diskPaths walk root
        (scanFolderSync diskPaths walk root DB.empty now1 sid1 ctr1).db
        now2 sid2 ctr2).stats.updated = 0 ∧
      (scanFolderSync diskPaths walk root
        (scanFolderSync diskPaths walk root DB.empty now1 sid1 ctr1).db
        now2 sid2 ctr2).stats.moved = 0 ∧
      (scanFolderSync diskPaths walk root
        (scanFolderSync diskPaths walk root DB.empty now1 sid1 ctr1).db
        now2 sid2 ctr2).stats.missing = 0 ∧
      (scanFolderSync diskPaths walk root
        (scanFolderSync diskPaths walk root DB.empty now1 sid1 ctr1).db
        now2 sid2 ctr2).hashed = 0) := by
  constructor
  · intro diskPaths sessionId now st f r0 hext hstat hfind hmt hsz
    obtain ⟨h1, h2, h3, h4, h5, h6, h7, _, h9, _, _⟩ :=
      scanStep_fastPath diskPaths sessionId now st f r0 hext hstat hfind hmt hsz
    exact ⟨h1, h2, h3, h4, h5, h6, h7, h9⟩
  · intro diskPaths walk root now1 now2 sid1 sid2 ctr1 ctr2 hnodup hfiles
    -- first scan, over the empty store
    obtain ⟨herr1, hinv1, hgood1, hpres1, hgrow1, hfrom1⟩ :=
      scan1_walk diskPaths sid1 now1 walk
        { db := { DB.empty with
            scanSessions := DB.empty.scanSessions ++ [startedSession sid1 root now1] },
          stats := ⟨0, 0, 0, 0, 0⟩, seen := [], hashed := 0, ctr := ctr1 }
        (by intro x hx; simp [DB.empty] at hx)
        (fun f hf => ⟨(hfiles f hf).1, (hfiles f hf).2.1, (hfiles f hf).2.2,
          by simp⟩)
        hnodup
    rcases hw1 : walkFold diskPaths sid1 now1
      { db := { DB.empty with
          scanSessions := DB.empty.scanSessions ++ [startedSession sid1 root now1] },
        stats := ⟨0, 0, 0, 0, 0⟩, seen := [], hashed := 0, ctr := ctr1 }
      walk with ⟨st1, err1⟩
    rw [hw1] at herr1 hinv1 hgood1 hpres1 hgrow1 hfrom1
    dsimp only at herr1 hinv1 hgood1 hpres1 hgrow1 hfrom1
    subst herr1
    have hnoop1 : scanMissing root sid1 now1 st1 = st1 :=
      scanMissing_noop root sid1 now1 st1 (fun x hx _ => (hinv1 x hx).2.1)
    have hr1 : scanFolderSync diskPaths walk root DB.empty now1 sid1 ctr1
        = { db := { st1.db with scanSessions := st1.db.scanSessions.map fun s =>
              if s.id = sid1 then { s with status := "success", endedAt := some now1 }
              else s },
            stats := st1.stats, hashed := st1.hashed, err := none } := by
      unfold scanFolderSync
      dsimp only
      rw [hw1]
      dsimp only
      rw [hnoop1]
    have hfiles1 : (scanFolderSync diskPaths walk root DB.empty now1 sid1 ctr1).db.files
        = st1.db.files := by rw [hr1]
    refine ⟨by rw [hr1], ?_⟩
    -- second scan, over the database the first scan left behind
    set r1db := (scanFolderSync diskPaths walk root DB.empty now1 sid1 ctr1).db
      with hset
    have hfiles1' : r1db.files = st1.db.files := by rw [hset]; exact hfiles1
    obtain ⟨ierr, ifiles, ia, iu, im, imi, ihh, igrow, iself⟩ :=
      scan2_walk diskPaths sid2 now2 walk
        { db := { r1db with
            scanSessions := r1db.scanSessions ++ [startedSession sid2 root now2] },
          stats := ⟨0, 0, 0, 0, 0⟩, seen := [], hashed := 0, ctr := ctr2 }
        (fun f hf => (hfiles f hf).1)
        (fun f hf hfe => goodAt_of_files_eq hfiles1'.symm (hgood1 f hf hfe))
        (by
          intro x hx
          have hx' : x ∈ r1db.files := hx
          rw [hfiles1'] at hx'
          exact (hinv1 x hx').1)
    rcases hw2 : walkFold diskPaths sid2 now2
      { db := { r1db with
          scanSessions := r1db.scanSessions ++ [startedSession sid2 root now2] },
        stats := ⟨0, 0, 0, 0, 0⟩, seen := [], hashed := 0, ctr := ctr2 }
      walk with ⟨st2, err2⟩
    rw [hw2] at ierr ifiles ia iu im imi ihh igrow iself
    dsimp only at ierr ifiles ia iu im imi ihh igrow iself
    subst ierr
    have hnoop2 : scanMissing root sid2 now2 st2 = st2 := by
      apply scanMissing_noop
      intro x hx _
      rw [ifiles] at hx
      have hx' : x ∈ r1db.files := hx
      rw [hfiles1'] at hx'
      have hseen := (hinv1 x hx').2.1
      rcases hfrom1 x.path hseen with hnil | ⟨f, hfw, hfe, hfp⟩
      · simp at hnil
      · rw [← hfp]
        exact iself f hfw hfe
    have hr2 : scanFolderSync diskPaths walk root r1db now2 sid2 ctr2
        = { db := { st2.db with scanSessions := st2.db.scanSessions.map fun s =>
              if s.id = sid2 then { s with status := "success", endedAt := some now2 }
              else s },
            stats := st2.stats, hashed := st2.hashed, err := none } := by
      unfold scanFolderSync
      dsimp only
      rw [hw2]
      dsimp only
      rw [hnoop2]
    rw [hr2]
    exact ⟨rfl, by rw [ia], by rw [iu], by rw [im], by rw [imi], by rw [ihh]⟩

/-- C4 witness: a one-file directory scanned twice from an empty store. -/
theorem C4_witness :
    ((extOk (⟨"/r/q.epub", 1, some 1, some "h", true⟩ : DiskFile) ∧
      c6Db.files.find? (fun r => r.path = "/r/q.epub" ∧ r.status ≠ "inactive")
        = some c6Orig) ∧
     (scanStep c6Disk "s5" 100
        { db := c6Db, stats := ⟨0, 0, 0, 0, 0⟩, seen := [], hashed := 0, ctr := 0 }
        ⟨"/r/q.epub", 1, some 1, some "h", true⟩).1.stats.unchanged = 1 ∧
     (scanStep c6Disk "s5" 100
        { db := c6Db, stats := ⟨0, 0, 0, 0, 0⟩, seen := [], hashed := 0, ctr := 0 }
        ⟨"/r/q.epub", 1, some 1, some "h", true⟩).1.hashed = 0) ∧
    ((scanFolderSync c6Disk c6Walk "/r" DB.empty 100 "w1" 0).err = none ∧
     (scanFolderSync c6Disk c6Walk "/r"
        (scanFolderSync c6Disk c6Walk "/r" DB.empty 100 "w1" 0).db
        200 "w2" 50).stats.added = 0 ∧
     (scanFolderSync c6Disk c6Walk "/r"
        (scanFolderSync c6Disk c6Walk "/r" DB.empty 100 "w1" 0).db
        200 "w2" 50).hashed = 0) :=
  have hext : extOk (⟨"/r/q.epub", 1, some 1, some "h", true⟩ : DiskFile) := by decide
  have hfind : c6Db.files.find?
      (fun r => r.path = "/r/q.epub" ∧ r.status ≠ "inactive") = some c6Orig := by decide
  have hA := C4_theorem.1 c6Disk "s5" 100
    { db := c6Db, stats := ⟨0, 0, 0, 0, 0⟩, seen := [], hashed := 0, ctr := 0 }
    ⟨"/r/q.epub", 1, some 1, some "h", true⟩ c6Orig hext (by decide)
    (by exact hfind) (by decide) (by decide)
  have hB := C4_theorem.2 c6Disk c6Walk "/r" 100 200 "w1" "w2" 0 50
    (by decide) (by decide)
  ⟨⟨⟨hext, hfind⟩, hA.2.2.1, hA.2.1⟩, hB.1, hB.2.2.1, hB.2.2.2.2.2.2⟩

end Folio

